import Mathlib

/-!
Verification of the rune runtime against its specification.

This file shallowly embeds the parts of the rune repository that the
claims under scrutiny concern: the ring-buffered `VecDeque` from
`crates/rune-alloc/src/vec_deque/mod.rs`, the script-facing deque
bindings from `crates/rune/src/modules/collections/vec_deque.rs`, the
virtual machine run loop and the instruction handlers from
`crates/rune/src/runtime/vm.rs` together with the budget from
`crates/rune/src/runtime/budget.rs`, the generator from
`crates/rune/src/runtime/generator.rs`, the import resolution loop from
`crates/rune/src/query/query.rs`, and the char-or-label lexer rule from
`crates/rune/src/parse/lexer.rs`.

Machine integers are modelled as `Nat`/`Int`; wrapping arithmetic on
`usize` is spelled out where the source relies on it.
-/

namespace Rune

/-- Ring-buffered double-ended queue, from
`crates/rune-alloc/src/vec_deque/mod.rs`.  The raw allocation is
modelled as a total function `buf` from physical slot to content; slots
outside the logical window hold junk that is never observed. -/
structure VecDeque (α : Type) where
  head : Nat
  len : Nat
  cap : Nat
  buf : Nat → α

/-- `wrap_index` from `vec_deque/mod.rs`: reduces a logical index that
is at most `2 * capacity - 1` into the buffer range. -/
def wrap_index (logical_index capacity : Nat) : Nat :=
  if logical_index ≥ capacity then logical_index - capacity else logical_index

namespace VecDeque

variable {α : Type}

/-- `VecDeque::wrap_add`. -/
def wrap_add (d : VecDeque α) (idx addend : Nat) : Nat :=
  wrap_index (idx + addend) d.cap

/-- `VecDeque::to_physical_idx`. -/
def to_physical_idx (d : VecDeque α) (idx : Nat) : Nat :=
  d.wrap_add d.head idx

/-- `VecDeque::wrap_sub`.  The source computes
`wrap_index(idx.wrapping_sub(subtrahend).wrapping_add(capacity), capacity)`
on `usize`; for the in-range arguments the deque uses
(`idx < capacity`, `subtrahend ≤ capacity`, `capacity < 2^63`) this equals
`wrap_index (idx + capacity - subtrahend) capacity` over `Nat`. -/
def wrap_sub (d : VecDeque α) (idx subtrahend : Nat) : Nat :=
  wrap_index (idx + d.cap - subtrahend) d.cap

/-- `VecDeque::copy`: `ptr::copy` (memmove) of `len` slots from `src` to
`dst`, denotationally: the destination range receives the prior source
range, all other slots are unchanged. -/
def copy (d : VecDeque α) (src dst len : Nat) : VecDeque α :=
  { d with
    buf := fun p => if dst ≤ p ∧ p < dst + len then d.buf (src + (p - dst)) else d.buf p }

/-- `VecDeque::wrap_copy`: copies a potentially wrapping block of `len`
slots from `src` to `dst`.  The source matches on the triple
`(dst_after_src, src_wraps, dst_wraps)`; the match is rendered here as a
chain of conditionals in the same arm order, with the let-bound
conditions inlined: `dst_after_src` is `wrap_sub dst src < len`,
`src_pre_wrap_len` is `cap - src`, `dst_pre_wrap_len` is `cap - dst`,
`src_wraps` is `cap - src < len`, `dst_wraps` is `cap - dst < len`,
and `delta` is the difference of the pre-wrap lengths. -/
def wrap_copy (d : VecDeque α) (src dst len : Nat) : VecDeque α :=
  if src = dst ∨ len = 0 then d
  else if ¬(d.cap - src < len) ∧ ¬(d.cap - dst < len) then
    -- (_, false, false): src doesn't wrap, dst doesn't wrap
    d.copy src dst len
  else if ¬(d.wrap_sub dst src < len) ∧ ¬(d.cap - src < len) ∧ (d.cap - dst < len) then
    -- (false, false, true)
    (d.copy src dst (d.cap - dst)).copy (src + (d.cap - dst)) 0 (len - (d.cap - dst))
  else if (d.wrap_sub dst src < len) ∧ ¬(d.cap - src < len) ∧ (d.cap - dst < len) then
    -- (true, false, true)
    ((d.copy (src + (d.cap - dst)) 0 (len - (d.cap - dst))).copy src dst (d.cap - dst))
  else if ¬(d.wrap_sub dst src < len) ∧ (d.cap - src < len) ∧ ¬(d.cap - dst < len) then
    -- (false, true, false)
    (d.copy src dst (d.cap - src)).copy 0 (dst + (d.cap - src)) (len - (d.cap - src))
  else if (d.wrap_sub dst src < len) ∧ (d.cap - src < len) ∧ ¬(d.cap - dst < len) then
    -- (true, true, false)
    ((d.copy 0 (dst + (d.cap - src)) (len - (d.cap - src))).copy src dst (d.cap - src))
  else if ¬(d.wrap_sub dst src < len) ∧ (d.cap - src < len) ∧ (d.cap - dst < len) then
    -- (false, true, true)
    (((d.copy src dst (d.cap - src)).copy 0 (dst + (d.cap - src))
        ((d.cap - dst) - (d.cap - src))).copy ((d.cap - dst) - (d.cap - src)) 0
      (len - (d.cap - dst)))
  else
    -- (true, true, true)
    (((d.copy 0 ((d.cap - src) - (d.cap - dst)) (len - (d.cap - src))).copy
        (d.cap - ((d.cap - src) - (d.cap - dst))) 0 ((d.cap - src) - (d.cap - dst))).copy
      src dst (d.cap - dst))

/-- `VecDeque::rotate_left_inner`. -/
def rotate_left_inner (d : VecDeque α) (mid : Nat) : VecDeque α :=
  let d1 := d.wrap_copy d.head (d.to_physical_idx d.len) mid
  { d1 with head := d.to_physical_idx mid }

/-- `VecDeque::rotate_right_inner`: the source updates `head` first and
then copies into the freshly opened window. -/
def rotate_right_inner (d : VecDeque α) (k : Nat) : VecDeque α :=
  let d1 := { d with head := d.wrap_sub d.head k }
  d1.wrap_copy (d1.to_physical_idx d1.len) d1.head k

/-- `VecDeque::rotate_left`.  The `assert!(mid <= self.len())` is
modelled as returning `none` (a panic) when violated. -/
def rotate_left (d : VecDeque α) (mid : Nat) : Option (VecDeque α) :=
  if mid ≤ d.len then
    let k := d.len - mid
    some (if mid ≤ k then d.rotate_left_inner mid else d.rotate_right_inner k)
  else none

/-- `VecDeque::rotate_right`. -/
def rotate_right (d : VecDeque α) (k : Nat) : Option (VecDeque α) :=
  if k ≤ d.len then
    let mid := d.len - k
    some (if k ≤ mid then d.rotate_right_inner k else d.rotate_left_inner mid)
  else none

/-- The logical element sequence of the deque, front to back. -/
def toList (d : VecDeque α) : List α :=
  (List.range d.len).map fun i => d.buf (d.to_physical_idx i)

/-- Offset of physical slot `p` inside the wrapped window that starts at
physical slot `dst` (for `p < cap`, `dst < cap`). -/
def dst_offset (dst cap p : Nat) : Nat :=
  if dst ≤ p then p - dst else p + cap - dst

/-- Representation invariant maintained by every deque the allocator
hands out. -/
def WF (d : VecDeque α) : Prop :=
  d.len ≤ d.cap ∧ (d.head < d.cap ∨ (d.cap = 0 ∧ d.head = 0))

/-- Build a deque holding exactly the elements of `l` (as
`VecDeque::from` does), at full capacity with `head = 0`. -/
def fromList (l : List α) (junk : α) : VecDeque α :=
  { head := 0, len := l.length, cap := l.length, buf := fun i => l.getD i junk }

end VecDeque

/-! ## Virtual machine

The run loop, the call-frame discipline and the instruction handlers are
embedded from `crates/rune/src/runtime/vm.rs`.  The `Stack` type and a
few leaf helpers (`runtime/stack.rs`, `runtime/inst.rs`, the
`ArithmeticOps` table, `result_try` / `option_try`) are not among the
provided sources; those are modelled from the spec as marked on each
definition.  The 64-bit float payload is kept abstract in a type
parameter `F`, with its IEEE-754 arithmetic supplied by the `F64Ops`
class. -/

/-- Signed 64-bit minimum, `i64::MIN`. -/
def I64_MIN : Int := -(2 ^ 63)

/-- Signed 64-bit maximum, `i64::MAX`. -/
def I64_MAX : Int := 2 ^ 63 - 1

/-- Unsigned 64-bit maximum, `u64::MAX`. -/
def U64_MAX : Nat := 2 ^ 64 - 1

/-- Stand-ins for the 64-bit type hashes of the built-in reference
types (`Result`, `Option`, `Future`, and the inline values); only their
distinctness matters to dispatch. -/
def RESULT_HASH : Nat := 1

def OPTION_HASH : Nat := 2

def FUTURE_HASH : Nat := 3

def UNIT_HASH : Nat := 4

def BOOL_HASH : Nat := 5

def SIGNED_HASH : Nat := 6

def UNSIGNED_HASH : Nat := 7

def FLOAT_HASH : Nat := 8

def TUPLE_HASH : Nat := 9

/-- Runtime values.  Mirrors the `Repr` split of `Value`: `unit`,
`bool`, `signed`, `unsigned` and `float` are the inline variants used by
the claims; `resultOk`/`resultErr`, `optionSome`/`optionNone` and
`future` are reference-counted any-objects of the built-in types
(identified by `Result::HASH` / `Option::HASH` / `Future::HASH` in
`op_try` and `op_select`); `anyObj ty` is any other reference-counted
any-object carrying its type hash; `empty` is `Value::empty()`. -/
inductive Value (F : Type) where
  | empty
  | unit
  | bool (b : Bool)
  | signed (i : Int)
  | unsigned (n : Nat)
  | float (x : F)
  | resultOk (v : Value F)
  | resultErr (v : Value F)
  | optionSome (v : Value F)
  | optionNone
  | future (completed : Bool)
  | pair (fst : Value F) (snd : Value F)
  | anyObj (ty : Nat)
deriving DecidableEq

/-- Type info attached to runtime errors (`TypeInfo` in the source). -/
inductive TypeInfo where
  | empty
  | unit
  | bool
  | signed
  | unsigned
  | float
  | result
  | option
  | future
  | tuple
  | any (ty : Nat)
deriving DecidableEq

namespace Value

variable {F : Type}

def type_info : Value F → TypeInfo
  | .empty => .empty
  | .unit => .unit
  | .bool _ => .bool
  | .signed _ => .signed
  | .unsigned _ => .unsigned
  | .float _ => .float
  | .resultOk _ | .resultErr _ => .result
  | .optionSome _ | .optionNone => .option
  | .future _ => .future
  | .pair _ _ => .tuple
  | .anyObj ty => .any ty

def type_hash : Value F → Nat
  | .empty => 0
  | .unit => UNIT_HASH
  | .bool _ => BOOL_HASH
  | .signed _ => SIGNED_HASH
  | .unsigned _ => UNSIGNED_HASH
  | .float _ => FLOAT_HASH
  | .resultOk _ | .resultErr _ => RESULT_HASH
  | .optionSome _ | .optionNone => OPTION_HASH
  | .future _ => FUTURE_HASH
  | .pair _ _ => TUPLE_HASH
  | .anyObj ty => ty

/-- `Repr::Inline` classification. -/
def is_inline : Value F → Bool
  | .unit | .bool _ | .signed _ | .unsigned _ | .float _ => true
  | _ => false

/-- `Repr::Any` classification (reference-counted any-objects). -/
def is_any : Value F → Bool
  | .resultOk _ | .resultErr _ | .optionSome _ | .optionNone
  | .future _ | .pair _ _ | .anyObj _ => true
  | _ => false

end Value

/-- Error kinds surfaced by the embedded fragments (`VmErrorKind`). -/
inductive VmErrorKind where
  | ipOutOfBounds (ip : Nat) (length : Nat)
  | overflow
  | underflow
  | divideByZero
  | expectedInteger (actual : TypeInfo)
  | unsupportedBinaryOperation (op : String) (lhs : TypeInfo) (rhs : TypeInfo)
  | unsupportedTryOperand (actual : TypeInfo)
  | expectedControlFlow (actual : TypeInfo)
  | expectedFuture (actual : TypeInfo)
  | badJump (jump : Nat)
  | stackError
  | outOfRange (index : Nat) (length : Nat)
  | generatorComplete
deriving DecidableEq

/-- The arithmetic instruction's operator (`InstArithmeticOp`). -/
inductive ArithOp where
  | add
  | sub
  | mul
  | div
  | rem
deriving DecidableEq

/-- IEEE-754 double arithmetic, kept abstract: `x` is the claim-level
stand-in for `f64` and `fop` for the `ops.f64` entries of the
`ArithmeticOps` table. -/
class F64Ops (F : Type) where
  fop : ArithOp → F → F → F

/-- Modelled from the spec: the `ArithmeticOps::from_op` table's `u64`
entries are the checked (non-wrapping) operations; `None` signals
overflow, underflow or division by zero. -/
def checked_u64 : ArithOp → Nat → Nat → Option Nat
  | .add, a, b => if a + b ≤ U64_MAX then some (a + b) else none
  | .sub, a, b => if b ≤ a then some (a - b) else none
  | .mul, a, b => if a * b ≤ U64_MAX then some (a * b) else none
  | .div, a, b => if b ≠ 0 then some (a / b) else none
  | .rem, a, b => if b ≠ 0 then some (a % b) else none

/-- Modelled from the spec: the `ArithmeticOps::from_op` table's `i64`
entries; truncated division and remainder as in Rust, `None` on
overflow or division by zero. -/
def checked_i64 : ArithOp → Int → Int → Option Int
  | .add, a, b => if I64_MIN ≤ a + b ∧ a + b ≤ I64_MAX then some (a + b) else none
  | .sub, a, b => if I64_MIN ≤ a - b ∧ a - b ≤ I64_MAX then some (a - b) else none
  | .mul, a, b => if I64_MIN ≤ a * b ∧ a * b ≤ I64_MAX then some (a * b) else none
  | .div, a, b =>
    if b ≠ 0 ∧ ¬(a = I64_MIN ∧ b = -1) then some (a.tdiv b) else none
  | .rem, a, b =>
    if b ≠ 0 ∧ ¬(a = I64_MIN ∧ b = -1) then some (a.tmod b) else none

/-- Modelled from the spec: the protocol name recorded in
`UnsupportedBinaryOperation` errors (`ops.protocol.name`). -/
def arith_protocol_name : ArithOp → String
  | .add => "+"
  | .sub => "-"
  | .mul => "*"
  | .div => "/"
  | .rem => "%"

/-- Modelled from the spec: the protocol hash the arithmetic
instruction dispatches through on non-inline receivers. -/
def arith_protocol_hash : ArithOp → Nat
  | .add => 101
  | .sub => 102
  | .mul => 103
  | .div => 104
  | .rem => 105

/-- Modelled from the spec: the `ops.error` entry — the error produced
when the checked integer operation fails. -/
def arith_error : ArithOp → VmErrorKind
  | .add => .overflow
  | .sub => .underflow
  | .mul => .overflow
  | .div => .divideByZero
  | .rem => .divideByZero

/-- The `TRY` protocol hash used by `op_try`'s fallback. -/
def TRY_PROTOCOL : Nat := 110

/-- Modelled from the spec: `Inline::as_integer::<u64>()` — coercion of
an inline operand to `u64` with a range check. -/
def as_integer_u64 {F : Type} : Value F → Except VmErrorKind Nat
  | .unsigned n => .ok n
  | .signed i => if 0 ≤ i then .ok i.toNat else .error (.expectedInteger .signed)
  | v => .error (.expectedInteger v.type_info)

/-- Modelled from the spec: `Inline::as_integer::<i64>()`. -/
def as_integer_i64 {F : Type} : Value F → Except VmErrorKind Int
  | .signed i => .ok i
  | .unsigned n =>
    if (n : Int) ≤ I64_MAX then .ok (n : Int) else .error (.expectedInteger .unsigned)
  | v => .error (.expectedInteger v.type_info)

/-- Modelled from the spec: the stack is a contiguous vector of values
with a `top` offset marking the current frame's base; instruction
addresses are offsets into the window starting at `top`
(`runtime/stack.rs` is not among the provided sources). -/
structure Stack (F : Type) where
  items : List (Value F)
  top : Nat
deriving DecidableEq

namespace Stack

variable {F : Type}

/-- Modelled from the spec: `Stack::at` reads the value at a
frame-relative address (the source returns a reference without
failing; out-of-window slots read as empty). -/
def atAddr (s : Stack F) (addr : Nat) : Value F :=
  s.items.getD (s.top + addr) .empty

/-- Modelled from the spec: `Stack::store` writes a value to an output:
`none` is the discard sentinel, `some a` writes the frame-relative
address `a`, growing the vector when the slot lies beyond its end. -/
def store (s : Stack F) (out : Option Nat) (v : Value F) : Stack F :=
  match out with
  | none => s
  | some a =>
    { s with
      items :=
        (s.items ++ List.replicate (s.top + a + 1 - s.items.length) Value.empty).set
          (s.top + a) v }

/-- Modelled from the spec: `Stack::push` appends a value. -/
def push (s : Stack F) (v : Value F) : Stack F :=
  { s with items := s.items ++ [v] }

/-- Modelled from the spec: `Stack::addr`, the frame-relative address
of the next free slot. -/
def addr (s : Stack F) : Nat :=
  s.items.length - s.top

/-- Modelled from the spec: `Stack::resize` resizes the current frame
window to `size` slots, filling fresh slots with empty values. -/
def resize (s : Stack F) (size : Nat) : Stack F :=
  { s with items := s.items.takeD (s.top + size) .empty }

/-- Modelled from the spec: `Stack::pop_stack_top` restores the stack
length and the frame base to the given saved top (claim 9 of the spec:
the stack length equals the popped frame's saved top immediately before
the caller's instruction pointer is restored). -/
def pop_stack_top (s : Stack F) (top : Nat) : Stack F :=
  { items := s.items.take top, top := top }

/-- Modelled from the spec: `Stack::slice_at` reads `len` contiguous
values starting at a frame-relative address, failing when the range
leaves the stack. -/
def slice_at (s : Stack F) (addr len : Nat) : Except VmErrorKind (List (Value F)) :=
  if s.top + addr + len ≤ s.items.length then
    .ok ((List.range len).map fun i => s.atAddr (addr + i))
  else .error .stackError

end Stack

/-- A call frame: return ip, caller's saved top, isolation flag and the
caller-side output for the return value (`CallFrame` in `vm.rs`). -/
structure CallFrame where
  ip : Nat
  top : Nat
  isolated : Bool
  out : Option Nat
deriving DecidableEq

/-- Inline constants carried by the `Store` instruction
(`InstValue`). -/
inductive InstValue (F : Type) where
  | unit
  | bool (b : Bool)
  | signed (i : Int)
  | unsigned (n : Nat)
  | float (x : F)
deriving DecidableEq

def InstValue.into_value {F : Type} : InstValue F → Value F
  | .unit => .unit
  | .bool b => .bool b
  | .signed i => .signed i
  | .unsigned n => .unsigned n
  | .float x => .float x

/-- The instruction subset embedded from `inst::Kind` (operands are
frame-relative addresses, outputs are an address or the discard
sentinel `none`).  `ret`/`retUnit` are `Return`/`ReturnUnit`, `tryOp`
is `Try`, `select` is `Select` with its `value` output. -/
inductive Inst (F : Type) where
  | allocate (size : Nat)
  | store (value : InstValue F) (out : Option Nat)
  | copy (addr : Nat) (out : Option Nat)
  | jump (jump : Nat)
  | jumpIf (cond : Nat) (jump : Nat)
  | jumpIfNot (cond : Nat) (jump : Nat)
  | arithmetic (op : ArithOp) (a : Nat) (b : Nat) (out : Option Nat)
  | tryOp (addr : Nat) (out : Option Nat)
  | select (addr : Nat) (len : Nat) (value : Option Nat)
  | ret (addr : Nat)
  | retUnit
deriving DecidableEq

/-- The compiled unit fragment the embedded instructions need: the
instruction array and the jump table resolved by `translate`.  The
variable-width instruction encoding is abstracted away: `instruction_at`
looks up by index and every instruction reports length 1. -/
structure VmUnit (F : Type) where
  instructions : List (Inst F)
  jumps : List Nat
deriving DecidableEq

def VmUnit.instruction_at {F : Type} (u : VmUnit F) (ip : Nat) : Option (Inst F × Nat) :=
  u.instructions[ip]?.map fun inst => (inst, 1)

def VmUnit.translate {F : Type} (u : VmUnit F) (jump : Nat) : Except VmErrorKind Nat :=
  match u.jumps[jump]? with
  | some ip => .ok ip
  | none => .error (.badJump jump)

/-- The virtual machine state: instruction pointer, last instruction
length, stack, call frames, the unit, and the context's associated
function table (keyed by type hash and protocol hash, as in §4.4.4 of
the spec). -/
structure Vm (F : Type) where
  context : Nat → Nat → Option (Value F → Value F → Except VmErrorKind (Value F))
  unit : VmUnit F
  ip : Nat
  last_ip_len : Nat
  stack : Stack F
  call_frames : List CallFrame

namespace Vm

variable {F : Type}

/-- `Vm::pop_call_frame`: pops a call frame (most recent first),
restores the stack to the frame's saved top and the caller's ip; with
no frames left the execution is isolated and has no output. -/
def pop_call_frame (vm : Vm F) : (Bool × Option (Option Nat)) × Vm F :=
  match vm.call_frames with
  | [] => ((true, none), { vm with stack := vm.stack.pop_stack_top 0 })
  | frame :: rest =>
    ((frame.isolated, some frame.out),
      { vm with
        stack := vm.stack.pop_stack_top frame.top
        ip := frame.ip
        call_frames := rest })

/-- `Vm::op_return_internal`: pops the frame, then stores the return
value at the frame's output (or pushes it when there is none); returns
the output when the popped frame was isolated. -/
def op_return_internal (vm : Vm F) (return_value : Value F) : Option (Option Nat) × Vm F :=
  match vm.pop_call_frame with
  | ((exit, some out), vm1) =>
    (if exit then some out else none, { vm1 with stack := vm1.stack.store out return_value })
  | ((exit, none), vm1) =>
    let addr := vm1.stack.addr
    (if exit then some (some addr) else none, { vm1 with stack := vm1.stack.push return_value })

/-- `Vm::op_return`. -/
def op_return (vm : Vm F) (addr : Nat) : Option (Option Nat) × Vm F :=
  vm.op_return_internal (vm.stack.atAddr addr)

/-- `Vm::op_return_unit`. -/
def op_return_unit (vm : Vm F) : Option (Option Nat) × Vm F :=
  match vm.pop_call_frame with
  | ((exit, some out), vm1) =>
    (if exit then some out else none, { vm1 with stack := vm1.stack.store out .unit })
  | ((exit, none), vm1) =>
    let addr := vm1.stack.addr
    (if exit then some (some addr) else none, { vm1 with stack := vm1.stack.push .unit })

/-- `Vm::op_allocate`. -/
def op_allocate (vm : Vm F) (size : Nat) : Vm F :=
  { vm with stack := vm.stack.resize size }

/-- `Vm::op_store`. -/
def op_store (vm : Vm F) (value : InstValue F) (out : Option Nat) : Vm F :=
  { vm with stack := vm.stack.store out value.into_value }

/-- `Vm::op_copy`. -/
def op_copy (vm : Vm F) (addr : Nat) (out : Option Nat) : Vm F :=
  { vm with stack := vm.stack.store out (vm.stack.atAddr addr) }

/-- `Vm::op_jump`. -/
def op_jump (vm : Vm F) (jump : Nat) : Except VmErrorKind (Vm F) := do
  let ip ← vm.unit.translate jump
  .ok { vm with ip := ip }

/-- `Vm::op_jump_if`: jumps when the condition slot holds inline
`true`. -/
def op_jump_if (vm : Vm F) (cond : Nat) (jump : Nat) : Except VmErrorKind (Vm F) :=
  match vm.stack.atAddr cond with
  | .bool true => do
    let ip ← vm.unit.translate jump
    .ok { vm with ip := ip }
  | _ => .ok vm

/-- `Vm::op_jump_if_not`: jumps when the condition slot holds inline
`false`. -/
def op_jump_if_not (vm : Vm F) (cond : Nat) (jump : Nat) : Except VmErrorKind (Vm F) :=
  match vm.stack.atAddr cond with
  | .bool false => do
    let ip ← vm.unit.translate jump
    .ok { vm with ip := ip }
  | _ => .ok vm

/-- `Vm::op_arithmetic`: on two inline operands the integer paths are
checked and mixed signedness goes through `as_integer`; two inline
floats use the IEEE-754 table entry; a reference-counted left operand
dispatches through the arithmetic protocol, failing with
`UnsupportedBinaryOperation` naming both type infos when no
implementation exists; anything else is `UnsupportedBinaryOperation`
outright. -/
def op_arithmetic [F64Ops F] (vm : Vm F) (op : ArithOp) (a b : Nat) (out : Option Nat) :
    Except VmErrorKind (Vm F) :=
  let lhs := vm.stack.atAddr a
  let rhs := vm.stack.atAddr b
  if lhs.is_inline ∧ rhs.is_inline then
    match lhs, rhs with
    | .unsigned lv, rhs =>
      match as_integer_u64 rhs with
      | .error e => .error e
      | .ok rv =>
        match checked_u64 op lv rv with
        | some v => .ok { vm with stack := vm.stack.store out (.unsigned v) }
        | none => .error (arith_error op)
    | .signed lv, rhs =>
      match as_integer_i64 rhs with
      | .error e => .error e
      | .ok rv =>
        match checked_i64 op lv rv with
        | some v => .ok { vm with stack := vm.stack.store out (.signed v) }
        | none => .error (arith_error op)
    | .float lv, .float rv =>
      .ok { vm with stack := vm.stack.store out (.float (F64Ops.fop op lv rv)) }
    | lhs, rhs =>
      .error (.unsupportedBinaryOperation (arith_protocol_name op) lhs.type_info rhs.type_info)
  else if lhs.is_any then
    match vm.context lhs.type_hash (arith_protocol_hash op) with
    | some handler =>
      match handler lhs rhs with
      | .error e => .error e
      | .ok v => .ok { vm with stack := vm.stack.store out v }
    | none =>
      .error (.unsupportedBinaryOperation (arith_protocol_name op) lhs.type_info rhs.type_info)
  else
    .error (.unsupportedBinaryOperation (arith_protocol_name op) lhs.type_info rhs.type_info)

end Vm

/-- Control-flow outcome of the try protocol (`ControlFlow`). -/
inductive ControlFlowM (F : Type) where
  | cont (v : Value F)
  | brk (v : Value F)

namespace Vm

variable {F : Type}

/-- `Vm::op_try`: `Result` and `Option` any-objects take the built-in
paths (modelled from the spec: `result_try` / `option_try` continue on
`Ok`/`Some` and break with `Err(e)` / `None`); other reference-counted
values dispatch the `TRY` protocol, failing with
`UnsupportedTryOperand` when absent; a break performs
`op_return_internal` with the propagated value. -/
def op_try (vm : Vm F) (addr : Nat) (out : Option Nat) :
    Except VmErrorKind (Option (Option Nat) × Vm F) := do
  let result ← do
    match vm.stack.atAddr addr with
    | .resultOk v => .ok (ControlFlowM.cont v)
    | .resultErr e => .ok (ControlFlowM.brk (.resultErr e))
    | .optionSome v => .ok (ControlFlowM.cont v)
    | .optionNone => .ok (ControlFlowM.brk .optionNone)
    | value =>
      match vm.context value.type_hash TRY_PROTOCOL with
      | some handler => do
        let res ← handler value .unit
        -- `ControlFlow::from_value` on the handler's result: the
        -- modelled value universe carries no control-flow encoding, so
        -- the conversion fails as on any non-control-flow value.
        .error (.expectedControlFlow res.type_info)
      | none =>
        .error (.unsupportedTryOperand value.type_info)
  match result with
  | .cont v => .ok (none, { vm with stack := vm.stack.store out v })
  | .brk error => .ok (vm.op_return_internal error)

/-- The collection loop inside `Vm::op_select`: every slot must hold a
future handle; completed futures are filtered out, the rest are tagged
with `ip + branch` (`SelectFuture::new(self.ip + branch, future)`). -/
def select_collect (ip : Nat) :
    List (Value F) → Nat → Except VmErrorKind (List (Nat × Value F))
  | [], _ => .ok []
  | v :: rest, branch =>
    match v with
    | .future completed =>
      match select_collect ip rest (branch + 1) with
      | .error e => .error e
      | .ok tail =>
        if completed then .ok tail else .ok ((ip + branch, Value.future completed) :: tail)
    | v => .error (.expectedFuture v.type_info)

/-- `Vm::op_select`: reads `len` future handles from contiguous
addresses, filters out the already-completed ones before polling, and
either falls through writing unit (all complete at entry) or hands the
remaining futures to the run loop to await, each tagged with
`ip + branch`. -/
def op_select (vm : Vm F) (addr len : Nat) (value : Option Nat) :
    Except VmErrorKind (Option (List (Nat × Value F)) × Vm F) :=
  match vm.stack.slice_at addr len with
  | .error e => .error e
  | .ok slice =>
    match select_collect vm.ip slice 0 with
    | .error e => .error e
    | .ok futures =>
      if futures.isEmpty then
        .ok (none, { vm with stack := vm.stack.store value .unit, ip := vm.ip + len })
      else
        .ok (some futures, vm)

end Vm

/-- Halt reasons surfaced to the host by a single `run` step
(`VmHalt`): `exited` carries the output location of the return value,
`awaited` carries the pending select branches and the select output. -/
inductive VmHalt (F : Type) where
  | exited (out : Option Nat)
  | awaited (select : List (Nat × Value F)) (value : Option Nat)

/-- Result of dispatching one instruction. -/
inductive StepOut (F : Type) where
  | halt (h : VmHalt F) (vm : Vm F)
  | next (vm : Vm F)

namespace Vm

variable {F : Type}

/-- One iteration of `Vm::run`'s loop body (after the budget take):
fetch the instruction at `ip` (failing with `IpOutOfBounds` past the
end), advance `ip` by the instruction length, and dispatch. -/
def step [F64Ops F] (vm : Vm F) : Except VmErrorKind (StepOut F) := do
  match vm.unit.instruction_at vm.ip with
  | none => .error (.ipOutOfBounds vm.ip vm.unit.instructions.length)
  | some (inst, inst_len) =>
    let vm := { vm with ip := vm.ip + inst_len, last_ip_len := inst_len }
    match inst with
    | .allocate size => .ok (.next (vm.op_allocate size))
    | .store value out => .ok (.next (vm.op_store value out))
    | .copy addr out => .ok (.next (vm.op_copy addr out))
    | .jump jump => do
      let vm ← vm.op_jump jump
      .ok (.next vm)
    | .jumpIf cond jump => do
      let vm ← vm.op_jump_if cond jump
      .ok (.next vm)
    | .jumpIfNot cond jump => do
      let vm ← vm.op_jump_if_not cond jump
      .ok (.next vm)
    | .arithmetic op a b out => do
      let vm ← vm.op_arithmetic op a b out
      .ok (.next vm)
    | .tryOp addr out => do
      match ← vm.op_try addr out with
      | (some out, vm) => .ok (.halt (.exited out) vm)
      | (none, vm) => .ok (.next vm)
    | .select addr len value => do
      match ← vm.op_select addr len value with
      | (some sel, vm) => .ok (.halt (.awaited sel value) vm)
      | (none, vm) => .ok (.next vm)
    | .ret addr =>
      match vm.op_return addr with
      | (some out, vm) => .ok (.halt (.exited out) vm)
      | (none, vm) => .ok (.next vm)
    | .retUnit =>
      match vm.op_return_unit with
      | (some out, vm) => .ok (.halt (.exited out) vm)
      | (none, vm) => .ok (.next vm)

end Vm

/-- Outcome of `Vm::run` under an installed budget: `limited` is
`VmHalt::Limited` — the budget reached zero and the program state is
handed back untouched; `halted` is any other halt. -/
inductive RunRes (F : Type) where
  | limited (vm : Vm F)
  | halted (h : VmHalt F) (vm : Vm F)

namespace Vm

variable {F : Type}

/-- `Vm::run` under an installed budget of `budget` units
(`budget::with(budget, …)` installing the thread-local counter that
`budget::acquire`/`BudgetGuard::take` consume): every loop iteration
takes one unit before fetching an instruction and returns
`VmHalt::Limited` when none is left. -/
def run [F64Ops F] : Nat → Vm F → Except VmErrorKind (RunRes F)
  | 0, vm => .ok (.limited vm)
  | budget + 1, vm =>
    match vm.step with
    | .error e => .error e
    | .ok (.halt h vm1) => .ok (.halted h vm1)
    | .ok (.next vm1) => run budget vm1

/-- Modelled from the spec: completing a select writes the ready
branch's `(index, value)` outcome into the select's output. -/
def select_complete (vm : Vm F) (value : Option Nat) (index : Nat) (ready : Value F) : Vm F :=
  { vm with stack := vm.stack.store value (.pair (.unsigned index) ready) }

end Vm

/-! ## Generator (`crates/rune/src/runtime/generator.rs`) -/

/-- `GeneratorState`. -/
inductive GeneratorState (F : Type) where
  | yielded (v : Value F)
  | complete (v : Value F)

def GeneratorState.is_complete {F : Type} : GeneratorState F → Bool
  | .complete _ => true
  | .yielded _ => false

/-- Modelled from the spec: a stored `VmExecution` is a resumable
computation over a saved VM snapshot — an oracle with an `is_resumed`
flag, a first `resume()` and a `resume_with(value)` continuation
(`runtime/vm_execution.rs` is not among the provided sources). -/
inductive VmExecution (F : Type) where
  | mk (is_resumed : Bool)
      (resume0 : Except VmErrorKind (GeneratorState F × VmExecution F))
      (resume_with : Value F → Except VmErrorKind (GeneratorState F × VmExecution F))

def VmExecution.is_resumed {F : Type} : VmExecution F → Bool
  | .mk r _ _ => r

def VmExecution.resume0 {F : Type} :
    VmExecution F → Except VmErrorKind (GeneratorState F × VmExecution F)
  | .mk _ r _ => r

def VmExecution.resume_with {F : Type} :
    VmExecution F → Value F → Except VmErrorKind (GeneratorState F × VmExecution F)
  | .mk _ _ r => r

/-- `Generator`: a coroutine holding an optional stored execution. -/
structure Generator (F : Type) where
  execution : Option (VmExecution F)

namespace Generator

variable {F : Type}

/-- `Generator::resume`: with no stored execution the resume fails with
`GeneratorComplete`; otherwise the execution is driven (first resume
versus resume-with-value), and on a `Complete` state the stored
execution is discarded. -/
def resume (g : Generator F) (value : Value F) :
    Except VmErrorKind (GeneratorState F × Generator F) :=
  match g.execution with
  | none => .error .generatorComplete
  | some execution =>
    match (if execution.is_resumed then execution.resume_with value else execution.resume0) with
    | .error e => .error e
    | .ok (state, execution1) =>
      .ok (state, { execution := if state.is_complete then none else some execution1 })

/-- `Generator::next`: resumes with the empty tuple; `Yielded(v)` is
`some v`, `Complete(_)` is `none`. -/
def next (g : Generator F) : Except VmErrorKind (Option (Value F) × Generator F) :=
  match g.resume .unit with
  | .error e => .error e
  | .ok (.yielded v, g1) => .ok (some v, g1)
  | .ok (.complete _, g1) => .ok (none, g1)

end Generator

/-! ## Script-facing deque bindings
(`crates/rune/src/modules/collections/vec_deque.rs`) -/

/-- The script-facing `VecDeque::rotate_left`: a rotation amount above
the length is a recoverable `OutOfRange` error carrying the requested
index and the length; otherwise the allocator rotation runs (its
in-bounds assert cannot fire, so the `Option` is defaulted away).  The
`&mut self` receiver is modelled by returning the deque next to the
result. -/
def script_rotate_left {α : Type} (d : VecDeque α) (mid : Nat) :
    Except VmErrorKind Unit × VecDeque α :=
  if mid > d.len then
    (.error (.outOfRange mid d.len), d)
  else
    (.ok (), (d.rotate_left mid).getD d)

/-- The script-facing `VecDeque::rotate_right`. -/
def script_rotate_right {α : Type} (d : VecDeque α) (mid : Nat) :
    Except VmErrorKind Unit × VecDeque α :=
  if mid > d.len then
    (.error (.outOfRange mid d.len), d)
  else
    (.ok (), (d.rotate_right mid).getD d)

/-! ## Import resolution (`crates/rune/src/query/query.rs`) -/

/-- `IMPORT_RECURSION_LIMIT`: the permitted number of import recursions
when constructing a path. -/
def IMPORT_RECURSION_LIMIT : Nat := 128

/-- Import-loop errors (`ErrorKind::ImportRecursionLimit` carries the
count, `ErrorKind::ImportCycle` the collected path — the path payload
is omitted here). -/
inductive ImportError where
  | importRecursionLimit (count : Nat)
  | importCycle
deriving DecidableEq

/-- `Query::import`'s outer loop.  The inner prefix walk plus
`import_step` (which may mutate the query state) is abstracted into
`stepFn`: given the query state and the current module and item, it
returns `none` when no prefix of the item resolves to an import, or the
updated state with the import's module and the target joined with the
remaining components.  The loop checks the recursion budget, runs one
walk, and on a match records the current item in the visited set —
rejecting the import with `ImportCycle` when it was already visited —
before continuing; without a match it returns the final item when any
step matched. -/
def import_loop {σ M Item : Type} [DecidableEq Item]
    (stepFn : σ → M × Item → Option (σ × M × Item))
    (st : σ) (mi : M × Item) (visited : List Item) (count : Nat) (any_matched : Bool) :
    Except ImportError (Option Item) :=
  if count > IMPORT_RECURSION_LIMIT then
    .error (.importRecursionLimit count)
  else
    match stepFn st mi with
    | none => if any_matched then .ok (some mi.2) else .ok none
    | some (st1, m1, i1) =>
      if mi.2 ∈ visited then
        .error .importCycle
      else
        import_loop stepFn st1 (m1, i1) (mi.2 :: visited) (count + 1) true
termination_by IMPORT_RECURSION_LIMIT + 1 - count
decreasing_by omega

/-- `Query::import` entry: fresh visited set, count zero, nothing
matched yet. -/
def query_import {σ M Item : Type} [DecidableEq Item]
    (stepFn : σ → M × Item → Option (σ × M × Item))
    (st : σ) (mi : M × Item) : Except ImportError (Option Item) :=
  import_loop stepFn st mi [] 0 false

/-- The chain of states the import loop traverses: iterated
applications of `stepFn`. -/
def import_chain {σ M Item : Type}
    (stepFn : σ → M × Item → Option (σ × M × Item))
    (st : σ) (mi : M × Item) : Nat → Option (σ × (M × Item))
  | 0 => some (st, mi)
  | n + 1 =>
    match import_chain stepFn st mi n with
    | none => none
    | some (s, p) =>
      match stepFn s p with
      | none => none
      | some (s1, m1, i1) => some (s1, (m1, i1))

/-- The item component of the n-th state of the import chain. -/
def import_item {σ M Item : Type}
    (stepFn : σ → M × Item → Option (σ × M × Item))
    (st : σ) (mi : M × Item) (n : Nat) : Option Item :=
  (import_chain stepFn st mi n).map fun p => p.2.2

/-- Fixture: a step function whose items cycle 0 → 1 → 0. -/
def c7_cycle_step : Unit → Unit × Nat → Option (Unit × Unit × Nat) :=
  fun _ p => some ((), (), (p.2 + 1) % 2)

/-- Fixture: a step function whose items never repeat. -/
def c7_succ_step : Unit → Unit × Nat → Option (Unit × Unit × Nat) :=
  fun _ p => some ((), (), p.2 + 1)

/-! ## Lexer char-or-label rule (`crates/rune/src/parse/lexer.rs`) -/

/-- Token kinds produced by `next_char_or_label`. -/
inductive CharOrLabel where
  | label
  | char
deriving DecidableEq

/-- Lexer errors reachable from `next_char_or_label`. -/
inductive LexErrorKind where
  | expectedEscape
  | unterminatedCharLit
  | expectedCharClose
  | expectedCharOrLabel
deriving DecidableEq

/-- `char::is_control` (Unicode general category `Cc`): `U+0000` to
`U+001F` and `U+007F` to `U+009F`. -/
def char_is_control (c : Char) : Bool :=
  decide (c.toNat < 0x20 ∨ (0x7f ≤ c.toNat ∧ c.toNat ≤ 0x9f))

/-- The label-continuation characters the lexer accepts: the source's
match arm `'0'..='9' | 'a'..='z'`. -/
def is_label_char (c : Char) : Bool :=
  decide (('0' ≤ c ∧ c ≤ '9') ∨ ('a' ≤ c ∧ c ≤ 'z'))

/-- Modelled from the spec: identifiers are Unicode XID; on the ASCII
range identifier-continuation characters are letters, digits and
underscore. -/
def spec_ident_continue_ascii (c : Char) : Bool :=
  decide (c = '_' ∨ ('A' ≤ c ∧ c ≤ 'Z') ∨ ('a' ≤ c ∧ c ≤ 'z') ∨ ('0' ≤ c ∧ c ≤ '9'))

/-- The state after the scanning loop of `next_char_or_label` breaks or
exhausts the input: no characters consumed is an error
(`ExpectedCharClose` after a closing quote, `ExpectedCharOrLabel`
otherwise), then the `is_label` flag picks the token kind. -/
def char_or_label_finish (is_label : Bool) (count : Nat) : Except LexErrorKind CharOrLabel :=
  if count = 0 then
    if is_label = false then .error .expectedCharClose
    else .error .expectedCharOrLabel
  else if is_label then .ok .label
  else .ok .char

/-- The scanning loop of `Lexer::next_char_or_label` over the
characters following the opening quote: escapes consume two characters
and clear `is_label`; a closing quote clears `is_label` and stops;
digits and lowercase letters are label components; control characters
are an unterminated char literal; any other character stops a pending
label or else clears `is_label` and is consumed. -/
def char_or_label_loop : List Char → Bool → Nat → Except LexErrorKind CharOrLabel
  | [], is_label, count => char_or_label_finish is_label count
  | c :: rest, is_label, count =>
    if c = '\\' then
      match rest with
      | [] => .error .expectedEscape
      | _ :: rest1 => char_or_label_loop rest1 false (count + 1)
    else if c = '\'' then
      char_or_label_finish false count
    else if is_label_char c then
      char_or_label_loop rest is_label (count + 1)
    else if char_is_control c then
      .error .unterminatedCharLit
    else if is_label ∧ count > 0 then
      char_or_label_finish is_label count
    else
      char_or_label_loop rest false (count + 1)

/-- `Lexer::next_char_or_label`, applied to the characters after the
opening quote. -/
def next_char_or_label (input : List Char) : Except LexErrorKind CharOrLabel :=
  char_or_label_loop input true 0

/-! ### Concrete fixtures for the witnesses -/

instance : F64Ops Unit := ⟨fun _ _ _ => ()⟩

/-- Fixture: a three-instruction program for the budget witness. -/
def c1_vm : Vm Unit :=
  { context := fun _ _ => none
    unit := { instructions := [.allocate 1, .store (.signed 42) (some 0), .ret 0], jumps := [] }
    ip := 0
    last_ip_len := 0
    stack := { items := [], top := 0 }
    call_frames := [] }

def c1_vma : Vm Unit :=
  { c1_vm with ip := 1, last_ip_len := 1, stack := { items := [.empty], top := 0 } }

def c1_vmb : Vm Unit :=
  { c1_vm with ip := 2, last_ip_len := 1, stack := { items := [.signed 42], top := 0 } }

def c1_vmc : Vm Unit :=
  { c1_vm with ip := 3, last_ip_len := 1, stack := { items := [.signed 42], top := 0 } }

/-- Fixture: a VM whose frame-0 slot holds a Result for the try
witness. -/
def c2_vm (v : Value Unit) : Vm Unit :=
  { context := fun _ _ => none
    unit := { instructions := [.tryOp 0 (some 1)], jumps := [] }
    ip := 0
    last_ip_len := 0
    stack := { items := [v, .unit], top := 0 }
    call_frames := [{ ip := 7, top := 0, isolated := true, out := some 0 }] }

/-- Fixture: a VM about to execute `Return 0` under an isolated frame. -/
def c4_vm : Vm Unit :=
  { context := fun _ _ => none
    unit := { instructions := [.ret 0], jumps := [] }
    ip := 0
    last_ip_len := 0
    stack := { items := [.unit, .signed 5, .signed 6], top := 2 }
    call_frames := [{ ip := 9, top := 1, isolated := true, out := some 0 }] }

/-- Fixture: an exhausted execution oracle. -/
def c10_dead : VmExecution Unit :=
  .mk true (.error .generatorComplete) (fun _ => .error .generatorComplete)

/-- Fixture: an execution that completes on its first resume. -/
def c10_exec : VmExecution Unit :=
  .mk false (.ok (.complete (.signed 3), c10_dead)) (fun _ => .ok (.complete (.signed 3), c10_dead))

/-- Fixture deque for the script rotation witness. -/
def c9_deque : VecDeque (Value Unit) :=
  VecDeque.fromList [.signed 1, .signed 2, .signed 3] .empty

/-- Fixture: operands for the arithmetic witness. -/
def c3_vm : Vm Unit :=
  { context := fun _ _ => none
    unit := { instructions := [], jumps := [] }
    ip := 0
    last_ip_len := 0
    stack :=
      { items := [.signed I64_MAX, .signed 1, .signed 0, .unsigned 0, .unsigned 1,
          .float (), .anyObj 55]
        top := 0 }
    call_frames := [] }

/-- Fixture: two completed futures. -/
def c6_vm_done : Vm Unit :=
  { context := fun _ _ => none
    unit := { instructions := [.select 0 2 (some 2)], jumps := [] }
    ip := 0
    last_ip_len := 0
    stack := { items := [.future true, .future true, .unit], top := 0 }
    call_frames := [] }

/-- Fixture: one incomplete future among the branches. -/
def c6_vm_pending : Vm Unit :=
  { c6_vm_done with stack := { items := [.future true, .future false, .unit], top := 0 } }

/-! ### Lemmas about the ring-buffer operations -/

namespace VecDeque

theorem copy_buf (d : VecDeque α) (src dst len p : Nat) :
    (d.copy src dst len).buf p =
      if dst ≤ p ∧ p < dst + len then d.buf (src + (p - dst)) else d.buf p := rfl

theorem wrap_sub_lt_iff (d : VecDeque α) (src dst len : Nat)
    (hsrc : src < d.cap) (hdst : dst < d.cap) :
    d.wrap_sub dst src < len ↔
      ((src ≤ dst ∧ dst - src < len) ∨ (dst < src ∧ dst + d.cap - src < len)) := by
  simp only [wrap_sub, wrap_index]
  split_ifs <;> omega

theorem wrap_copy_case1 (d : VecDeque α) (src dst len p : Nat)
    (hsrc : src < d.cap) (hdst : dst < d.cap)
    (hsw : ¬(d.cap - src < len)) (hdw : ¬(d.cap - dst < len))
    (hp : p < d.cap) :
    (d.copy src dst len).buf p =
      if dst_offset dst d.cap p < len then
        d.buf (wrap_index (src + dst_offset dst d.cap p) d.cap)
      else d.buf p := by
  simp only [copy_buf, dst_offset, wrap_index]
  split_ifs <;> first | rfl | (congr 1; omega)

theorem wrap_copy_case2 (d : VecDeque α) (src dst len p : Nat)
    (hsrc : src < d.cap) (hdst : dst < d.cap) (hlen : len ≤ d.cap)
    (hpre : (src - dst) + (dst - src) + len ≤ d.cap ∨
      (d.cap - ((src - dst) + (dst - src))) + len ≤ d.cap)
    (hdas : ¬((src ≤ dst ∧ dst - src < len) ∨ (dst < src ∧ dst + d.cap - src < len)))
    (hsw : ¬(d.cap - src < len)) (hdw : d.cap - dst < len)
    (hp : p < d.cap) :
    ((d.copy src dst (d.cap - dst)).copy (src + (d.cap - dst)) 0 (len - (d.cap - dst))).buf p =
      if dst_offset dst d.cap p < len then
        d.buf (wrap_index (src + dst_offset dst d.cap p) d.cap)
      else d.buf p := by
  simp only [copy_buf, dst_offset, wrap_index]
  split_ifs <;> first | rfl | (congr 1; omega)

theorem wrap_copy_case3 (d : VecDeque α) (src dst len p : Nat)
    (hsrc : src < d.cap) (hdst : dst < d.cap) (hlen : len ≤ d.cap)
    (hpre : (src - dst) + (dst - src) + len ≤ d.cap ∨
      (d.cap - ((src - dst) + (dst - src))) + len ≤ d.cap)
    (hdas : (src ≤ dst ∧ dst - src < len) ∨ (dst < src ∧ dst + d.cap - src < len))
    (hsw : ¬(d.cap - src < len)) (hdw : d.cap - dst < len)
    (hp : p < d.cap) :
    ((d.copy (src + (d.cap - dst)) 0 (len - (d.cap - dst))).copy src dst (d.cap - dst)).buf p =
      if dst_offset dst d.cap p < len then
        d.buf (wrap_index (src + dst_offset dst d.cap p) d.cap)
      else d.buf p := by
  simp only [copy_buf, dst_offset, wrap_index]
  split_ifs <;> first | rfl | (congr 1; omega)

theorem wrap_copy_case4 (d : VecDeque α) (src dst len p : Nat)
    (hsrc : src < d.cap) (hdst : dst < d.cap) (hlen : len ≤ d.cap)
    (hpre : (src - dst) + (dst - src) + len ≤ d.cap ∨
      (d.cap - ((src - dst) + (dst - src))) + len ≤ d.cap)
    (hdas : ¬((src ≤ dst ∧ dst - src < len) ∨ (dst < src ∧ dst + d.cap - src < len)))
    (hsw : d.cap - src < len) (hdw : ¬(d.cap - dst < len))
    (hp : p < d.cap) :
    ((d.copy src dst (d.cap - src)).copy 0 (dst + (d.cap - src)) (len - (d.cap - src))).buf p =
      if dst_offset dst d.cap p < len then
        d.buf (wrap_index (src + dst_offset dst d.cap p) d.cap)
      else d.buf p := by
  simp only [copy_buf, dst_offset, wrap_index]
  split_ifs <;> first | rfl | (congr 1; omega)

theorem wrap_copy_case5 (d : VecDeque α) (src dst len p : Nat)
    (hsrc : src < d.cap) (hdst : dst < d.cap) (hlen : len ≤ d.cap)
    (hpre : (src - dst) + (dst - src) + len ≤ d.cap ∨
      (d.cap - ((src - dst) + (dst - src))) + len ≤ d.cap)
    (hdas : (src ≤ dst ∧ dst - src < len) ∨ (dst < src ∧ dst + d.cap - src < len))
    (hsw : d.cap - src < len) (hdw : ¬(d.cap - dst < len))
    (hp : p < d.cap) :
    ((d.copy 0 (dst + (d.cap - src)) (len - (d.cap - src))).copy src dst (d.cap - src)).buf p =
      if dst_offset dst d.cap p < len then
        d.buf (wrap_index (src + dst_offset dst d.cap p) d.cap)
      else d.buf p := by
  simp only [copy_buf, dst_offset, wrap_index]
  split_ifs <;> first | rfl | (congr 1; omega)

theorem wrap_copy_case6 (d : VecDeque α) (src dst len p : Nat)
    (hsrc : src < d.cap) (hdst : dst < d.cap) (hlen : len ≤ d.cap)
    (hpre : (src - dst) + (dst - src) + len ≤ d.cap ∨
      (d.cap - ((src - dst) + (dst - src))) + len ≤ d.cap)
    (hdas : ¬((src ≤ dst ∧ dst - src < len) ∨ (dst < src ∧ dst + d.cap - src < len)))
    (hsw : d.cap - src < len) (hdw : d.cap - dst < len)
    (hp : p < d.cap) :
    (((d.copy src dst (d.cap - src)).copy 0 (dst + (d.cap - src))
        ((d.cap - dst) - (d.cap - src))).copy ((d.cap - dst) - (d.cap - src)) 0
      (len - (d.cap - dst))).buf p =
      if dst_offset dst d.cap p < len then
        d.buf (wrap_index (src + dst_offset dst d.cap p) d.cap)
      else d.buf p := by
  simp only [copy_buf, dst_offset, wrap_index]
  split_ifs <;> first | rfl | (congr 1; omega)

theorem wrap_copy_case7 (d : VecDeque α) (src dst len p : Nat)
    (hsrc : src < d.cap) (hdst : dst < d.cap) (hlen : len ≤ d.cap)
    (hpre : (src - dst) + (dst - src) + len ≤ d.cap ∨
      (d.cap - ((src - dst) + (dst - src))) + len ≤ d.cap)
    (hdas : (src ≤ dst ∧ dst - src < len) ∨ (dst < src ∧ dst + d.cap - src < len))
    (hsw : d.cap - src < len) (hdw : d.cap - dst < len)
    (hp : p < d.cap) :
    (((d.copy 0 ((d.cap - src) - (d.cap - dst)) (len - (d.cap - src))).copy
        (d.cap - ((d.cap - src) - (d.cap - dst))) 0 ((d.cap - src) - (d.cap - dst))).copy
      src dst (d.cap - dst)).buf p =
      if dst_offset dst d.cap p < len then
        d.buf (wrap_index (src + dst_offset dst d.cap p) d.cap)
      else d.buf p := by
  simp only [copy_buf, dst_offset, wrap_index]
  split_ifs <;> first | rfl | (congr 1; omega)

/-- Net effect of `wrap_copy` under its documented precondition
(`min(abs_diff(src, dst), cap - abs_diff(src, dst)) + len ≤ cap`, here
spelled with `Nat` subtraction): the wrapped destination window of
length `len` receives the values the wrapped source window held before
the call, and every other slot is unchanged. -/
theorem wrap_copy_spec (d : VecDeque α) (src dst len : Nat)
    (hsrc : src < d.cap) (hdst : dst < d.cap) (hlen : len ≤ d.cap)
    (hpre : (src - dst) + (dst - src) + len ≤ d.cap ∨
      (d.cap - ((src - dst) + (dst - src))) + len ≤ d.cap)
    (p : Nat) (hp : p < d.cap) :
    (d.wrap_copy src dst len).buf p =
      if dst_offset dst d.cap p < len then
        d.buf (wrap_index (src + dst_offset dst d.cap p) d.cap)
      else d.buf p := by
  have hiff := wrap_sub_lt_iff d src dst len hsrc hdst
  rw [wrap_copy]
  by_cases h0 : src = dst ∨ len = 0
  · rw [if_pos h0]
    simp only [dst_offset, wrap_index]
    split_ifs <;> first | rfl | (congr 1; omega)
  rw [if_neg h0]
  by_cases hsw : d.cap - src < len <;> by_cases hdw : d.cap - dst < len
  · -- src wraps, dst wraps
    by_cases hdas : d.wrap_sub dst src < len
    · rw [if_neg (by tauto), if_neg (by tauto), if_neg (by tauto), if_neg (by tauto),
        if_neg (by tauto), if_neg (by tauto)]
      exact wrap_copy_case7 d src dst len p hsrc hdst hlen hpre (hiff.mp hdas) hsw hdw hp
    · rw [if_neg (by tauto), if_neg (by tauto), if_neg (by tauto), if_neg (by tauto),
        if_neg (by tauto), if_pos (by tauto)]
      exact wrap_copy_case6 d src dst len p hsrc hdst hlen hpre
        (fun hc => hdas (hiff.mpr hc)) hsw hdw hp
  · -- src wraps, dst doesn't
    by_cases hdas : d.wrap_sub dst src < len
    · rw [if_neg (by tauto), if_neg (by tauto), if_neg (by tauto), if_neg (by tauto),
        if_pos (by tauto)]
      exact wrap_copy_case5 d src dst len p hsrc hdst hlen hpre (hiff.mp hdas) hsw hdw hp
    · rw [if_neg (by tauto), if_neg (by tauto), if_neg (by tauto), if_pos (by tauto)]
      exact wrap_copy_case4 d src dst len p hsrc hdst hlen hpre
        (fun hc => hdas (hiff.mpr hc)) hsw hdw hp
  · -- src doesn't wrap, dst wraps
    by_cases hdas : d.wrap_sub dst src < len
    · rw [if_neg (by tauto), if_neg (by tauto), if_pos (by tauto)]
      exact wrap_copy_case3 d src dst len p hsrc hdst hlen hpre (hiff.mp hdas) hsw hdw hp
    · rw [if_neg (by tauto), if_pos (by tauto)]
      exact wrap_copy_case2 d src dst len p hsrc hdst hlen hpre
        (fun hc => hdas (hiff.mpr hc)) hsw hdw hp
  · -- neither wraps
    rw [if_pos (by tauto)]
    exact wrap_copy_case1 d src dst len p hsrc hdst hsw hdw hp

theorem wrap_copy_len (d : VecDeque α) (src dst len : Nat) :
    (d.wrap_copy src dst len).len = d.len := by
  rw [wrap_copy]; split_ifs <;> rfl

theorem wrap_copy_cap (d : VecDeque α) (src dst len : Nat) :
    (d.wrap_copy src dst len).cap = d.cap := by
  rw [wrap_copy]; split_ifs <;> rfl

theorem wrap_copy_head (d : VecDeque α) (src dst len : Nat) :
    (d.wrap_copy src dst len).head = d.head := by
  rw [wrap_copy]; split_ifs <;> rfl

theorem wrap_index_lt {x cap : Nat} (hcap : 0 < cap) (hx : x < 2 * cap) :
    wrap_index x cap < cap := by
  simp only [wrap_index]; split_ifs <;> omega

set_option maxHeartbeats 2000000 in
/-- `rotate_left_inner` rotates the logical element sequence `mid`
places to the left (under the caller's precondition `2 * mid ≤ len`). -/
theorem toList_rotate_left_inner (d : VecDeque α) (mid : Nat)
    (hWF : d.WF) (hmid : 2 * mid ≤ d.len) :
    (d.rotate_left_inner mid).toList = d.toList.drop mid ++ d.toList.take mid := by
  obtain ⟨hlen, hhead⟩ := hWF
  rcases hhead with hh | ⟨hc0, hh0⟩
  case intro.inr.intro =>
    have h0 : d.len = 0 := by omega
    have hm : mid = 0 := by omega
    simp [toList, rotate_left_inner, wrap_copy_len, h0, hm]
  have hcap : 0 < d.cap := by omega
  have hmlen : mid ≤ d.len := by omega
  apply List.ext_getElem
  · simp [toList, rotate_left_inner, wrap_copy_len]
    omega
  intro i h1 h2
  have hi : i < d.len := by
    simpa [toList, rotate_left_inner, wrap_copy_len] using h1
  have hlhs : (d.rotate_left_inner mid).toList[i] =
      (d.wrap_copy d.head (d.to_physical_idx d.len) mid).buf
        (wrap_index (wrap_index (d.head + mid) d.cap + i) d.cap) := by
    simp [toList, rotate_left_inner, to_physical_idx, wrap_add, wrap_copy_len,
      wrap_copy_cap, hi]
  rw [hlhs]
  rw [wrap_copy_spec d d.head (d.to_physical_idx d.len) mid hh
    (by
      simp only [to_physical_idx, wrap_add]
      exact wrap_index_lt hcap (by omega))
    (by omega)
    (by
      simp only [to_physical_idx, wrap_add, wrap_index]
      split_ifs <;> omega)
    _
    (wrap_index_lt hcap (by
      have := wrap_index_lt hcap (show d.head + mid < 2 * d.cap by omega)
      omega))]
  by_cases hsplit : i < d.len - mid
  · rw [List.getElem_append_left (by simp [toList]; omega)]
    have hb1 : i < (d.toList.drop mid).length := by simp [toList]; omega
    have : (d.toList.drop mid)[i] =
        d.buf (d.to_physical_idx (mid + i)) := by
      simp [toList, List.getElem_drop]
    rw [this]
    simp only [to_physical_idx, wrap_add, dst_offset, wrap_index]
    split_ifs <;> first | rfl | (congr 1; omega) | omega
  · rw [List.getElem_append_right (by simp [toList]; omega)]
    have hb2 : i - (d.toList.drop mid).length < (d.toList.take mid).length := by
      simp [toList]; omega
    have : (d.toList.take mid)[i - (d.toList.drop mid).length] =
        d.buf (d.to_physical_idx (i - (d.len - mid))) := by
      simp [toList, List.getElem_take]
      all_goals (congr 1; omega)
    rw [this]
    simp only [to_physical_idx, wrap_add, dst_offset, wrap_index]
    split_ifs <;> first | rfl | (congr 1; omega) | omega

set_option maxHeartbeats 2000000 in
/-- `rotate_right_inner` rotates the logical element sequence `k` places
to the right (under the caller's precondition `2 * k ≤ len`). -/
theorem toList_rotate_right_inner (d : VecDeque α) (k : Nat)
    (hWF : d.WF) (hk : 2 * k ≤ d.len) :
    (d.rotate_right_inner k).toList =
      d.toList.drop (d.len - k) ++ d.toList.take (d.len - k) := by
  obtain ⟨hlen, hhead⟩ := hWF
  rcases hhead with hh | ⟨hc0, hh0⟩
  case intro.inr.intro =>
    have h0 : d.len = 0 := by omega
    have hm : k = 0 := by omega
    simp [toList, rotate_right_inner, wrap_copy_len, h0, hm]
  have hcap : 0 < d.cap := by omega
  have hklen : k ≤ d.len := by omega
  have hh1 : d.wrap_sub d.head k < d.cap := by
    simp only [wrap_sub, wrap_index]
    split_ifs <;> omega
  apply List.ext_getElem
  · simp [toList, rotate_right_inner, wrap_copy_len]
    all_goals omega
  intro i h1 h2
  have hi : i < d.len := by
    have := h1
    simp only [toList, rotate_right_inner, wrap_copy_len, List.length_map,
      List.length_range] at this
    exact this
  have hlhs : (d.rotate_right_inner k).toList[i] =
      (({ d with head := d.wrap_sub d.head k } : VecDeque α).wrap_copy
          (wrap_index (d.wrap_sub d.head k + d.len) d.cap) (d.wrap_sub d.head k) k).buf
        (wrap_index (d.wrap_sub d.head k + i) d.cap) := by
    simp [toList, rotate_right_inner, to_physical_idx, wrap_add, wrap_copy_len,
      wrap_copy_cap, wrap_copy_head, hi]
  rw [hlhs]
  rw [wrap_copy_spec ({ d with head := d.wrap_sub d.head k } : VecDeque α)
    (wrap_index (d.wrap_sub d.head k + d.len) d.cap) (d.wrap_sub d.head k) k
    (by
      dsimp only
      exact wrap_index_lt hcap (by simp only [wrap_sub, wrap_index]; split_ifs <;> omega))
    (by dsimp only; exact hh1)
    (by dsimp only; omega)
    (by
      dsimp only
      simp only [wrap_sub, wrap_index]
      split_ifs <;> omega)
    _
    (by
      dsimp only
      exact wrap_index_lt hcap (by simp only [wrap_sub, wrap_index]; split_ifs <;> omega))]
  dsimp only
  by_cases hsplit : i < d.len - (d.len - k)
  · rw [List.getElem_append_left (by simp [toList]; omega)]
    have hb1 : i < (d.toList.drop (d.len - k)).length := by simp [toList]; omega
    have : (d.toList.drop (d.len - k))[i] =
        d.buf (d.to_physical_idx ((d.len - k) + i)) := by
      simp [toList, List.getElem_drop]
    rw [this]
    simp only [to_physical_idx, wrap_add, wrap_sub, dst_offset, wrap_index]
    split_ifs <;> first | rfl | (congr 1; omega) | omega
  · rw [List.getElem_append_right (by simp [toList]; omega)]
    have hb2 : i - (d.toList.drop (d.len - k)).length <
        (d.toList.take (d.len - k)).length := by
      simp [toList]; omega
    have : (d.toList.take (d.len - k))[i - (d.toList.drop (d.len - k)).length] =
        d.buf (d.to_physical_idx (i - (d.len - (d.len - k)))) := by
      simp [toList, List.getElem_take]
      all_goals (congr 2; omega)
    rw [this]
    simp only [to_physical_idx, wrap_add, wrap_sub, dst_offset, wrap_index]
    split_ifs <;> first | rfl | (congr 1; omega) | omega

theorem rotate_left_inner_fields (d : VecDeque α) (mid : Nat) :
    (d.rotate_left_inner mid).len = d.len ∧ (d.rotate_left_inner mid).cap = d.cap ∧
      (d.rotate_left_inner mid).head = wrap_index (d.head + mid) d.cap := by
  refine ⟨?_, ?_, rfl⟩ <;> simp [rotate_left_inner, wrap_copy_len, wrap_copy_cap]

theorem rotate_right_inner_fields (d : VecDeque α) (k : Nat) :
    (d.rotate_right_inner k).len = d.len ∧ (d.rotate_right_inner k).cap = d.cap ∧
      (d.rotate_right_inner k).head = d.wrap_sub d.head k := by
  refine ⟨?_, ?_, ?_⟩ <;>
    simp [rotate_right_inner, wrap_copy_len, wrap_copy_cap, wrap_copy_head]

theorem wrap_index_wf {x cap : Nat} (hx : x < 2 * cap ∨ (cap = 0 ∧ x = 0)) :
    wrap_index x cap < cap ∨ (cap = 0 ∧ wrap_index x cap = 0) := by
  simp only [wrap_index]; split_ifs <;> omega

/-- `rotate_left mid` (for `mid ≤ len`) succeeds and rotates the logical
sequence `mid` places to the left, preserving well-formedness and length. -/
theorem toList_rotate_left (d : VecDeque α) (mid : Nat)
    (hWF : d.WF) (hmid : mid ≤ d.len) :
    ∃ d1, d.rotate_left mid = some d1 ∧
      d1.toList = d.toList.drop mid ++ d.toList.take mid ∧
      d1.WF ∧ d1.len = d.len := by
  obtain ⟨hlen, hhead⟩ := hWF
  rw [rotate_left, if_pos hmid]
  by_cases h : mid ≤ d.len - mid
  · refine ⟨_, by simp only [if_pos h], ?_, ?_, (rotate_left_inner_fields d mid).1⟩
    · exact toList_rotate_left_inner d mid ⟨hlen, hhead⟩ (by omega)
    · obtain ⟨h1, h2, h3⟩ := rotate_left_inner_fields d mid
      refine ⟨by omega, ?_⟩
      rw [h2, h3]
      exact wrap_index_wf (by omega)
  · refine ⟨_, by simp only [if_neg h], ?_, ?_, (rotate_right_inner_fields d (d.len - mid)).1⟩
    · rw [toList_rotate_right_inner d (d.len - mid) ⟨hlen, hhead⟩ (by omega)]
      have : d.len - (d.len - mid) = mid := by omega
      rw [this]
    · obtain ⟨h1, h2, h3⟩ := rotate_right_inner_fields d (d.len - mid)
      refine ⟨by omega, ?_⟩
      rw [h2, h3]
      simp only [wrap_sub]
      exact wrap_index_wf (by omega)

/-- `rotate_right k` (for `k ≤ len`) succeeds and rotates the logical
sequence `k` places to the right, preserving well-formedness and length. -/
theorem toList_rotate_right (d : VecDeque α) (k : Nat)
    (hWF : d.WF) (hk : k ≤ d.len) :
    ∃ d1, d.rotate_right k = some d1 ∧
      d1.toList = d.toList.drop (d.len - k) ++ d.toList.take (d.len - k) ∧
      d1.WF ∧ d1.len = d.len := by
  obtain ⟨hlen, hhead⟩ := hWF
  rw [rotate_right, if_pos hk]
  by_cases h : k ≤ d.len - k
  · refine ⟨_, by simp only [if_pos h], ?_, ?_, (rotate_right_inner_fields d k).1⟩
    · exact toList_rotate_right_inner d k ⟨hlen, hhead⟩ (by omega)
    · obtain ⟨h1, h2, h3⟩ := rotate_right_inner_fields d k
      refine ⟨by omega, ?_⟩
      rw [h2, h3]
      simp only [wrap_sub]
      exact wrap_index_wf (by omega)
  · refine ⟨_, by simp only [if_neg h], ?_, ?_, (rotate_left_inner_fields d (d.len - k)).1⟩
    · rw [toList_rotate_left_inner d (d.len - k) ⟨hlen, hhead⟩ (by omega)]
    · obtain ⟨h1, h2, h3⟩ := rotate_left_inner_fields d (d.len - k)
      refine ⟨by omega, ?_⟩
      rw [h2, h3]
      exact wrap_index_wf (by omega)

/-- Composing `rotate_left k` with `rotate_right k` restores the logical
element sequence whenever `k ≤ len`. -/
theorem rotate_left_then_right (d : VecDeque α) (k : Nat)
    (hWF : d.WF) (hk : k ≤ d.len) :
    ∃ d1 d2, d.rotate_left k = some d1 ∧ d1.rotate_right k = some d2 ∧
      d2.toList = d.toList := by
  obtain ⟨d1, he1, ht1, hwf1, hl1⟩ := toList_rotate_left d k hWF hk
  obtain ⟨d2, he2, ht2, hwf2, hl2⟩ := toList_rotate_right d1 k hwf1 (by omega)
  refine ⟨d1, d2, he1, he2, ?_⟩
  rw [ht2, ht1, hl1]
  have h1 : d.len - k = (d.toList.drop k).length := by simp [toList]
  rw [h1, List.drop_left, List.take_left]
  exact List.take_append_drop k d.toList

end VecDeque

/-- C5: for every deque `d` and every `k ≤ d.len`, `rotate_left k`
followed by `rotate_right k` restores the original element sequence; in
particular `rotate_left 3` on the deque `[0,…,9]` yields
`[3,4,5,6,7,8,9,0,1,2]`. -/
theorem c5_rotate_left_rotate_right_identity :
    (∀ (α : Type) (d : VecDeque α) (k : Nat), d.WF → k ≤ d.len →
      ∃ d1 d2, d.rotate_left k = some d1 ∧ d1.rotate_right k = some d2 ∧
        d2.toList = d.toList) ∧
    ((VecDeque.fromList [0,1,2,3,4,5,6,7,8,9] 0).rotate_left 3).map VecDeque.toList =
      some [3,4,5,6,7,8,9,0,1,2] := by
  constructor
  · intro α d k hWF hk
    exact VecDeque.rotate_left_then_right d k hWF hk
  · decide

/-- Witness for C5 at a concrete deque and rotation amount. -/
theorem c5_rotate_left_rotate_right_identity_witness :
    (VecDeque.fromList [10,20,30] 0).WF ∧ 2 ≤ (VecDeque.fromList [10,20,30] 0).len ∧
    ∃ d1 d2, (VecDeque.fromList [10,20,30] 0).rotate_left 2 = some d1 ∧
      d1.rotate_right 2 = some d2 ∧
      d2.toList = (VecDeque.fromList [10,20,30] 0).toList :=
  ⟨⟨by decide, Or.inl (by decide)⟩, by decide,
    c5_rotate_left_rotate_right_identity.1 Nat (VecDeque.fromList [10,20,30] 0) 2
      ⟨by decide, Or.inl (by decide)⟩ (by decide)⟩

/-! ### The claims about the virtual machine, the query and the lexer -/

theorem run_add {F : Type} [F64Ops F] (m n : Nat) (vm : Vm F) :
    Vm.run (m + n) vm =
      (match Vm.run m vm with
        | .ok (.limited vm1) => Vm.run n vm1
        | r => r) := by
  induction m generalizing vm with
  | zero => simp [Vm.run]
  | succ m ih =>
    have h1 : m + 1 + n = (m + n) + 1 := by omega
    rw [h1]
    simp only [Vm.run]
    cases hstep : vm.step with
    | error e => simp
    | ok so =>
      cases so with
      | halt h vm1 => simp
      | next vm1 => simpa using ih vm1

/-- C1: the run loop's budget accounting: with budget 0 the loop returns
the `limited` outcome retaining the state; each `next` step consumes
exactly one budget unit; and a run that halts with budget `N + 1` after
being `limited` at budget `N` halts identically when resumed with
budget 1 from the retained state. -/
theorem c1_budget :
    (∀ (F : Type) [F64Ops F] (vm : Vm F), Vm.run 0 vm = .ok (.limited vm)) ∧
    (∀ (F : Type) [F64Ops F] (b : Nat) (vm vm1 : Vm F),
      vm.step = .ok (.next vm1) → Vm.run (b + 1) vm = Vm.run b vm1) ∧
    (∀ (F : Type) [F64Ops F] (N : Nat) (vm vm1 vm2 : Vm F) (h : VmHalt F),
      Vm.run N vm = .ok (.limited vm1) →
      Vm.run (N + 1) vm = .ok (.halted h vm2) →
      Vm.run 1 vm1 = .ok (.halted h vm2)) := by
  refine ⟨fun F _ vm => by simp [Vm.run], ?_, ?_⟩
  · intro F _ b vm vm1 hstep
    simp [Vm.run, hstep]
  · intro F _ N vm vm1 vm2 h hlim hhalt
    have := run_add N 1 vm
    rw [hlim] at this
    simp only at this
    rw [hhalt] at this
    exact this.symm

theorem c1_budget_witness :
    c1_vm.step = .ok (.next c1_vma) ∧
    Vm.run 1 c1_vm = Vm.run 0 c1_vma ∧
    Vm.run 2 c1_vm = .ok (.limited c1_vmb) ∧
    Vm.run 3 c1_vm = .ok (.halted (.exited (some 0)) c1_vmc) ∧
    Vm.run 1 c1_vmb = .ok (.halted (.exited (some 0)) c1_vmc) :=
  ⟨by rfl,
    c1_budget.2.1 Unit 0 c1_vm c1_vma (by rfl),
    by rfl, by rfl,
    c1_budget.2.2 Unit 2 c1_vm c1_vmb c1_vmc (.exited (some 0)) (by rfl) (by rfl)⟩

/-- C2: the Try instruction writes the payload of a `Result::Ok` or
`Option::Some` at `addr` to `out` and continues; on `Result::Err` or
`Option::None` it performs the same return as a `Return` instruction at
`addr`, popping the current call frame. -/
theorem c2_try :
    (∀ (F : Type) (vm : Vm F) (addr : Nat) (out : Option Nat) (v : Value F),
      vm.stack.atAddr addr = .resultOk v →
      vm.op_try addr out = .ok (none, { vm with stack := vm.stack.store out v })) ∧
    (∀ (F : Type) (vm : Vm F) (addr : Nat) (out : Option Nat) (v : Value F),
      vm.stack.atAddr addr = .optionSome v →
      vm.op_try addr out = .ok (none, { vm with stack := vm.stack.store out v })) ∧
    (∀ (F : Type) (vm : Vm F) (addr : Nat) (out : Option Nat) (e : Value F),
      vm.stack.atAddr addr = .resultErr e →
      vm.op_try addr out = .ok (vm.op_return addr)) ∧
    (∀ (F : Type) (vm : Vm F) (addr : Nat) (out : Option Nat),
      vm.stack.atAddr addr = .optionNone →
      vm.op_try addr out = .ok (vm.op_return addr)) ∧
    (∀ (F : Type) (vm : Vm F) (addr : Nat) (out : Option Nat) (frame : CallFrame)
        (rest : List CallFrame) (e : Value F),
      vm.stack.atAddr addr = .resultErr e →
      vm.call_frames = frame :: rest →
      (vm.op_return addr).2.call_frames = rest) ∧
    (∀ (F : Type) [F64Ops F] (vm : Vm F) (addr : Nat) (out : Option Nat) (v : Value F),
      vm.unit.instruction_at vm.ip = some (.tryOp addr out, 1) →
      vm.stack.atAddr addr = .resultOk v →
      vm.step = .ok (.next
        { vm with ip := vm.ip + 1, last_ip_len := 1, stack := vm.stack.store out v })) := by
  refine ⟨?_, ?_, ?_, ?_, ?_, ?_⟩
  · intro F vm addr out v h
    simp [Vm.op_try, h]
    rfl
  · intro F vm addr out v h
    simp [Vm.op_try, h]
    rfl
  · intro F vm addr out e h
    simp [Vm.op_try, Vm.op_return, h]
    rfl
  · intro F vm addr out h
    simp [Vm.op_try, Vm.op_return, h]
    rfl
  · intro F vm addr out frame rest e h hf
    simp [Vm.op_return, Vm.op_return_internal, Vm.pop_call_frame, hf]
  · intro F _ vm addr out v hinst h
    simp [Vm.step, hinst, Vm.op_try, h]
    rfl

theorem c2_try_witness :
    (c2_vm (.resultOk (.signed 7))).stack.atAddr 0 = .resultOk (.signed 7) ∧
    (c2_vm (.resultOk (.signed 7))).op_try 0 (some 1) =
      .ok (none, { c2_vm (.resultOk (.signed 7)) with
        stack := (c2_vm (.resultOk (.signed 7))).stack.store (some 1) (.signed 7) }) ∧
    (c2_vm (.resultErr (.signed 9))).op_try 0 (some 1) =
      .ok ((c2_vm (.resultErr (.signed 9))).op_return 0) :=
  ⟨by rfl,
    c2_try.1 Unit (c2_vm (.resultOk (.signed 7))) 0 (some 1) (.signed 7) (by rfl),
    c2_try.2.2.1 Unit (c2_vm (.resultErr (.signed 9))) 0 (some 1) (.signed 9) (by rfl)⟩

/-- C4: popping a call frame truncates the stack to the frame's saved
`top` (the stack length equals `frame.top`) while restoring `ip` and
the remaining frames; a `Return` or `ReturnUnit` on an isolated frame
halts with the `exited` outcome carrying the frame's output location,
while on a non-isolated frame execution continues. -/
theorem c4_call_frame :
    (∀ (F : Type) (vm : Vm F) (frame : CallFrame) (rest : List CallFrame),
      vm.call_frames = frame :: rest →
      frame.top ≤ vm.stack.items.length →
      (vm.pop_call_frame).1 = (frame.isolated, some frame.out) ∧
      (vm.pop_call_frame).2.stack.items.length = frame.top ∧
      (vm.pop_call_frame).2.stack.top = frame.top ∧
      (vm.pop_call_frame).2.ip = frame.ip ∧
      (vm.pop_call_frame).2.call_frames = rest) ∧
    (∀ (F : Type) [F64Ops F] (vm : Vm F) (addr : Nat) (frame : CallFrame)
        (rest : List CallFrame),
      vm.unit.instruction_at vm.ip = some (.ret addr, 1) →
      vm.call_frames = frame :: rest →
      frame.isolated = true →
      ∃ vm1, vm.step = .ok (.halt (.exited frame.out) vm1)) ∧
    (∀ (F : Type) [F64Ops F] (vm : Vm F) (frame : CallFrame) (rest : List CallFrame),
      vm.unit.instruction_at vm.ip = some (.retUnit, 1) →
      vm.call_frames = frame :: rest →
      frame.isolated = true →
      ∃ vm1, vm.step = .ok (.halt (.exited frame.out) vm1)) ∧
    (∀ (F : Type) [F64Ops F] (vm : Vm F) (addr : Nat) (frame : CallFrame)
        (rest : List CallFrame),
      vm.unit.instruction_at vm.ip = some (.ret addr, 1) →
      vm.call_frames = frame :: rest →
      frame.isolated = false →
      ∃ vm1, vm.step = .ok (.next vm1)) := by
  refine ⟨?_, ?_, ?_, ?_⟩
  · intro F vm frame rest hf htop
    simp [Vm.pop_call_frame, hf, Stack.pop_stack_top]
    omega
  · intro F _ vm addr frame rest hinst hf hiso
    simp [Vm.step, hinst, Vm.op_return, Vm.op_return_internal, Vm.pop_call_frame, hf, hiso]
  · intro F _ vm frame rest hinst hf hiso
    simp [Vm.step, hinst, Vm.op_return_unit, Vm.pop_call_frame, hf, hiso]
  · intro F _ vm addr frame rest hinst hf hiso
    simp [Vm.step, hinst, Vm.op_return, Vm.op_return_internal, Vm.pop_call_frame, hf, hiso]

theorem c4_call_frame_witness :
    c4_vm.call_frames = [{ ip := 9, top := 1, isolated := true, out := some 0 }] ∧
    (c4_vm.pop_call_frame).1 = (true, some (some 0)) ∧
    (c4_vm.pop_call_frame).2.stack.items.length = 1 ∧
    (c4_vm.pop_call_frame).2.ip = 9 ∧
    (∃ vm1, c4_vm.step = .ok (.halt (.exited (some 0)) vm1)) :=
  by
    have h1 := c4_call_frame.1 Unit c4_vm
      { ip := 9, top := 1, isolated := true, out := some 0 } [] (by rfl) (by decide)
    have h2 := c4_call_frame.2.1 Unit c4_vm 0
      { ip := 9, top := 1, isolated := true, out := some 0 } [] (by rfl) (by rfl) (by rfl)
    exact ⟨by rfl, h1.1, h1.2.1, h1.2.2.2.1, h2⟩

/-- C10: once a generator observes a complete state its stored
execution is discarded, and every subsequent resume returns the
`generatorComplete` error; `next` returning `none` likewise leaves the
execution discarded. -/
theorem c10_generator :
    (∀ (F : Type) (g : Generator F) (v : Value F),
      g.execution = none → g.resume v = .error .generatorComplete) ∧
    (∀ (F : Type) (g g1 : Generator F) (v : Value F) (st : GeneratorState F),
      g.resume v = .ok (st, g1) → st.is_complete = true → g1.execution = none) ∧
    (∀ (F : Type) (g g1 : Generator F) (v : Value F) (st : GeneratorState F),
      g.resume v = .ok (st, g1) → st.is_complete = true →
      ∀ w, g1.resume w = .error .generatorComplete) ∧
    (∀ (F : Type) (g g1 : Generator F),
      g.next = .ok (none, g1) → g1.execution = none) := by
  have hres : ∀ (F : Type) (g g1 : Generator F) (v : Value F) (st : GeneratorState F),
      g.resume v = .ok (st, g1) → st.is_complete = true → g1.execution = none := by
    intro F g g1 v st hr hc
    cases hg : g.execution with
    | none => simp [Generator.resume, hg] at hr
    | some e =>
      simp only [Generator.resume, hg] at hr
      cases he : (if e.is_resumed then e.resume_with v else e.resume0) with
      | error er => rw [he] at hr; cases hr
      | ok p =>
        rw [he] at hr
        obtain ⟨st1, e1⟩ := p
        simp only at hr
        obtain ⟨h1, h2⟩ : st1 = st ∧
            ({ execution := if st1.is_complete then none else some e1 } : Generator F) = g1 := by
          simpa using hr
        rw [← h2]
        simp [h1, hc]
  refine ⟨?_, hres, ?_, ?_⟩
  · intro F g v hg
    simp [Generator.resume, hg]
  · intro F g g1 v st hr hc w
    have := hres F g g1 v st hr hc
    simp [Generator.resume, this]
  · intro F g g1 hn
    unfold Generator.next at hn
    cases hr : g.resume .unit with
    | error er => rw [hr] at hn; cases hn
    | ok p =>
      rw [hr] at hn
      obtain ⟨st, g2⟩ := p
      cases st with
      | yielded v => simp at hn
      | complete v =>
        simp only at hn
        obtain ⟨h1, h2⟩ : (none : Option (Value F)) = none ∧ g2 = g1 := by simpa using hn
        rw [← h2]
        exact hres F g g2 .unit (.complete v) hr (by rfl)

theorem c10_generator_witness :
    (Generator.mk (F := Unit) none).resume .unit = .error .generatorComplete ∧
    (∃ st g1, (Generator.mk (some c10_exec)).resume .unit = .ok (st, g1) ∧
      st.is_complete = true ∧ g1.execution = none ∧
      g1.resume .unit = .error .generatorComplete) := by
  refine ⟨c10_generator.1 Unit ⟨none⟩ .unit rfl, .complete (.signed 3), ⟨none⟩, by rfl, by rfl,
    ?_, ?_⟩
  · exact c10_generator.2.1 Unit ⟨some c10_exec⟩ ⟨none⟩ .unit (.complete (.signed 3)) (by rfl)
      (by rfl)
  · exact c10_generator.2.2.1 Unit ⟨some c10_exec⟩ ⟨none⟩ .unit (.complete (.signed 3)) (by rfl)
      (by rfl) .unit

/-- C9: the script-facing deque rotations with `mid` greater than the
length return the recoverable `outOfRange` error carrying the requested
index and the length, leaving the deque unchanged. -/
theorem c9_script_rotate :
    (∀ (α : Type) (d : VecDeque α) (mid : Nat), mid > d.len →
      script_rotate_left d mid = (.error (.outOfRange mid d.len), d)) ∧
    (∀ (α : Type) (d : VecDeque α) (mid : Nat), mid > d.len →
      script_rotate_right d mid = (.error (.outOfRange mid d.len), d)) := by
  constructor
  · intro α d mid h
    simp [script_rotate_left, h]
  · intro α d mid h
    simp [script_rotate_right, h]

theorem c9_script_rotate_witness :
    4 > c9_deque.len ∧
    script_rotate_left c9_deque 4 = (.error (.outOfRange 4 3), c9_deque) ∧
    script_rotate_right c9_deque 4 = (.error (.outOfRange 4 3), c9_deque) :=
  ⟨by decide,
    c9_script_rotate.1 (Value Unit) c9_deque 4 (by decide),
    c9_script_rotate.2 (Value Unit) c9_deque 4 (by decide)⟩

/-- C3: checked arithmetic: signed and unsigned integer operands go
through `checked_i64` and `checked_u64`, whose overflow, underflow and
division or remainder by zero yield the recoverable arithmetic error
instead of wrapping; float operands store the IEEE result without
error; an any-object left operand dispatches through the protocol
handler, and fails with `unsupportedBinaryOperation` naming both
operand type infos when none is installed. -/
theorem c3_arithmetic :
    (∀ (F : Type) [F64Ops F] (vm : Vm F) (op : ArithOp) (a b : Nat) (out : Option Nat)
        (x y : Int),
      vm.stack.atAddr a = .signed x → vm.stack.atAddr b = .signed y →
      vm.op_arithmetic op a b out =
        (match checked_i64 op x y with
          | some v => .ok { vm with stack := vm.stack.store out (.signed v) }
          | none => .error (arith_error op))) ∧
    (∀ (F : Type) [F64Ops F] (vm : Vm F) (op : ArithOp) (a b : Nat) (out : Option Nat)
        (x y : Nat),
      vm.stack.atAddr a = .unsigned x → vm.stack.atAddr b = .unsigned y →
      vm.op_arithmetic op a b out =
        (match checked_u64 op x y with
          | some v => .ok { vm with stack := vm.stack.store out (.unsigned v) }
          | none => .error (arith_error op))) ∧
    (∀ (x y : Int), I64_MAX < x + y ∨ x + y < I64_MIN → checked_i64 .add x y = none) ∧
    (∀ (x y : Int), I64_MIN ≤ x + y → x + y ≤ I64_MAX → checked_i64 .add x y = some (x + y)) ∧
    (∀ (x : Int), checked_i64 .div x 0 = none ∧ checked_i64 .rem x 0 = none) ∧
    (∀ (x y : Nat), x < y → checked_u64 .sub x y = none) ∧
    (∀ (F : Type) [F64Ops F] (vm : Vm F) (op : ArithOp) (a b : Nat) (out : Option Nat)
        (x y : F),
      vm.stack.atAddr a = .float x → vm.stack.atAddr b = .float y →
      vm.op_arithmetic op a b out =
        .ok { vm with stack := vm.stack.store out (.float (F64Ops.fop op x y)) }) ∧
    (∀ (F : Type) [F64Ops F] (vm : Vm F) (op : ArithOp) (a b : Nat) (out : Option Nat)
        (ty : Nat),
      vm.stack.atAddr a = .anyObj ty →
      vm.context ty (arith_protocol_hash op) = none →
      vm.op_arithmetic op a b out =
        .error (.unsupportedBinaryOperation (arith_protocol_name op) (.any ty)
          (vm.stack.atAddr b).type_info)) ∧
    (∀ (F : Type) [F64Ops F] (vm : Vm F) (op : ArithOp) (a b : Nat) (out : Option Nat)
        (ty : Nat) (handler : Value F → Value F → Except VmErrorKind (Value F))
        (res : Value F),
      vm.stack.atAddr a = .anyObj ty →
      vm.context ty (arith_protocol_hash op) = some handler →
      handler (.anyObj ty) (vm.stack.atAddr b) = .ok res →
      vm.op_arithmetic op a b out = .ok { vm with stack := vm.stack.store out res }) := by
  refine ⟨?_, ?_, ?_, ?_, ?_, ?_, ?_, ?_, ?_⟩
  · intro F _ vm op a b out x y ha hb
    simp only [Vm.op_arithmetic, ha, hb, Value.is_inline, as_integer_i64]
    rfl
  · intro F _ vm op a b out x y ha hb
    simp only [Vm.op_arithmetic, ha, hb, Value.is_inline, as_integer_u64]
    rfl
  · intro x y h
    simp only [checked_i64]
    split_ifs <;> first | rfl | omega
  · intro x y h1 h2
    simp only [checked_i64]
    split_ifs <;> first | rfl | omega
  · intro x
    refine ⟨?_, ?_⟩ <;> simp [checked_i64]
  · intro x y h
    simp only [checked_u64]
    split_ifs <;> first | rfl | omega
  · intro F _ vm op a b out x y ha hb
    simp [Vm.op_arithmetic, ha, hb, Value.is_inline]
  · intro F _ vm op a b out ty ha hctx
    simp [Vm.op_arithmetic, ha, Value.is_inline, Value.is_any, Value.type_hash, hctx,
      Value.type_info]
  · intro F _ vm op a b out ty handler res ha hctx hres
    simp [Vm.op_arithmetic, ha, Value.is_inline, Value.is_any, Value.type_hash, hctx, hres]

theorem c3_arithmetic_witness :
    c3_vm.op_arithmetic .add 0 1 (some 2) = .error .overflow ∧
    c3_vm.op_arithmetic .div 1 2 (some 2) = .error .divideByZero ∧
    c3_vm.op_arithmetic .sub 3 4 (some 2) = .error .underflow ∧
    c3_vm.op_arithmetic .add 1 1 (some 2) =
      .ok { c3_vm with stack := c3_vm.stack.store (some 2) (.signed 2) } ∧
    c3_vm.op_arithmetic .mul 5 5 (some 2) =
      .ok { c3_vm with stack := c3_vm.stack.store (some 2) (.float (F64Ops.fop .mul () ())) } ∧
    c3_vm.op_arithmetic .add 6 1 (some 2) =
      .error (.unsupportedBinaryOperation "+" (.any 55) .signed) := by
  refine ⟨?_, ?_, ?_, ?_, ?_, ?_⟩
  · rw [c3_arithmetic.1 Unit c3_vm .add 0 1 (some 2) I64_MAX 1 (by rfl) (by rfl)]
    rw [c3_arithmetic.2.2.1 I64_MAX 1 (by left; decide)]
    rfl
  · rw [c3_arithmetic.1 Unit c3_vm .div 1 2 (some 2) 1 0 (by rfl) (by rfl)]
    rw [(c3_arithmetic.2.2.2.2.1 1).1]
    rfl
  · rw [c3_arithmetic.2.1 Unit c3_vm .sub 3 4 (some 2) 0 1 (by rfl) (by rfl)]
    rw [c3_arithmetic.2.2.2.2.2.1 0 1 (by omega)]
    rfl
  · rw [c3_arithmetic.1 Unit c3_vm .add 1 1 (some 2) 1 1 (by rfl) (by rfl)]
    rw [c3_arithmetic.2.2.2.1 1 1 (by decide) (by decide)]
    rfl
  · exact c3_arithmetic.2.2.2.2.2.2.1 Unit c3_vm .mul 5 5 (some 2) () () (by rfl) (by rfl)
  · exact c3_arithmetic.2.2.2.2.2.2.2.1 Unit c3_vm .add 6 1 (some 2) 55 (by rfl) (by rfl)

theorem select_collect_all_complete {F : Type} (ip : Nat) :
    ∀ (l : List (Value F)) (branch : Nat), (∀ v ∈ l, v = .future true) →
      Vm.select_collect ip l branch = .ok [] := by
  intro l
  induction l with
  | nil => intro branch h; rfl
  | cons v rest ih =>
    intro branch h
    have hv : v = Value.future true := h v (by simp)
    subst hv
    simp [Vm.select_collect, ih (branch + 1) (fun w hw => h w (by simp [hw]))]

theorem select_collect_eq {F : Type} (ip : Nat) :
    ∀ (l : List (Value F)) (branch : Nat), (∀ v ∈ l, ∃ c, v = .future c) →
      Vm.select_collect ip l branch =
        .ok ((List.range l.length).filterMap fun i =>
          match l.getD i .empty with
          | Value.future false => some (ip + branch + i, Value.future false)
          | _ => none) := by
  intro l
  induction l with
  | nil => intro branch h; rfl
  | cons v rest ih =>
    intro branch h
    obtain ⟨c, hv⟩ := h v (by simp)
    subst hv
    have ihr := ih (branch + 1) (fun w hw => h w (by simp [hw]))
    simp only [Vm.select_collect, ihr]
    have harith : ∀ i : Nat, ip + (branch + 1) + i = ip + branch + (i + 1) := fun i => by omega
    cases c with
    | true =>
      simp [List.range_succ_eq_map, List.filterMap_cons, List.filterMap_map, Function.comp,
        harith]
      congr 1
      funext i
      simp [Function.comp, List.getElem?_cons_succ, harith]
    | false =>
      simp [List.range_succ_eq_map, List.filterMap_cons, List.filterMap_map, Function.comp,
        harith]
      congr 1
      funext i
      simp [Function.comp, List.getElem?_cons_succ, harith]

/-- C6: the Select instruction filters completed futures out of the
`len` stack slots: when every future is complete it writes unit to
`out` and falls through past the branch table; otherwise the VM
suspends with the `awaited` halt carrying exactly the incomplete
futures; completing a branch writes the `(index, value)` pair to
`out`. -/
theorem c6_select :
    (∀ (F : Type) (vm : Vm F) (addr len : Nat) (value : Option Nat) (l : List (Value F)),
      vm.stack.slice_at addr len = .ok l →
      (∀ v ∈ l, v = .future true) →
      vm.op_select addr len value =
        .ok (none, { vm with stack := vm.stack.store value .unit, ip := vm.ip + len })) ∧
    (∀ (F : Type) (vm : Vm F) (addr len : Nat) (value : Option Nat) (l : List (Value F)),
      vm.stack.slice_at addr len = .ok l →
      (∀ v ∈ l, ∃ c, v = .future c) →
      (∃ v ∈ l, v = .future false) →
      ∃ sel, vm.op_select addr len value = .ok (some sel, vm) ∧ sel ≠ [] ∧
        ∀ i, i < l.length →
          (l.getD i .empty = .future false ↔ (vm.ip + i, Value.future false) ∈ sel)) ∧
    (∀ (F : Type) [F64Ops F] (vm : Vm F) (addr len : Nat) (value : Option Nat)
        (l : List (Value F)),
      vm.unit.instruction_at vm.ip = some (.select addr len value, 1) →
      vm.stack.slice_at addr len = .ok l →
      (∀ v ∈ l, v = .future true) →
      vm.step = .ok (.next
        { vm with
            ip := vm.ip + 1 + len
            last_ip_len := 1
            stack := vm.stack.store value .unit })) ∧
    (∀ (F : Type) [F64Ops F] (vm : Vm F) (addr len : Nat) (value : Option Nat)
        (l : List (Value F)),
      vm.unit.instruction_at vm.ip = some (.select addr len value, 1) →
      vm.stack.slice_at addr len = .ok l →
      (∀ v ∈ l, ∃ c, v = .future c) →
      (∃ v ∈ l, v = .future false) →
      ∃ sel, vm.step = .ok (.halt (.awaited sel value)
        { vm with
            ip := vm.ip + 1
            last_ip_len := 1 })) ∧
    (∀ (F : Type) (vm : Vm F) (value : Option Nat) (index : Nat) (ready : Value F),
      (vm.select_complete value index ready).stack =
        vm.stack.store value (.pair (.unsigned index) ready)) := by
  have hpend : ∀ (F : Type) (vm : Vm F) (addr len : Nat) (value : Option Nat)
      (l : List (Value F)),
      vm.stack.slice_at addr len = .ok l →
      (∀ v ∈ l, ∃ c, v = .future c) →
      (∃ v ∈ l, v = .future false) →
      ∃ sel, vm.op_select addr len value = .ok (some sel, vm) ∧ sel ≠ [] ∧
        ∀ i, i < l.length →
          (l.getD i .empty = .future false ↔ (vm.ip + i, Value.future false) ∈ sel) := by
    intro F vm addr len value l hs hfut hpend
    refine ⟨(List.range l.length).filterMap fun i =>
      match l.getD i .empty with
      | Value.future false => some (vm.ip + i, Value.future false)
      | _ => none, ?_, ?_, ?_⟩
    · simp only [Vm.op_select, hs, select_collect_eq vm.ip l 0 hfut]
      obtain ⟨v, hv, hvf⟩ := hpend
      obtain ⟨i, hi, hgi⟩ := List.getElem_of_mem hv
      have hne : ((List.range l.length).filterMap fun j =>
          match l.getD j .empty with
          | Value.future false => some (vm.ip + 0 + j, (Value.future false : Value F))
          | _ => none) ≠ [] := by
        apply List.ne_nil_of_mem (a := (vm.ip + 0 + i, Value.future false))
        simp only [List.mem_filterMap, List.mem_range]
        exact ⟨i, hi, by rw [List.getD, List.get?_eq_getElem?, List.getElem?_eq_getElem hi]; simp [hgi, hvf]⟩
      rw [if_neg (by simpa [List.isEmpty_iff] using hne)]
      have harith : ∀ j : Nat, vm.ip + 0 + j = vm.ip + j := fun j => by omega
      simp [harith]
    · obtain ⟨v, hv, hvf⟩ := hpend
      obtain ⟨i, hi, hgi⟩ := List.getElem_of_mem hv
      apply List.ne_nil_of_mem (a := (vm.ip + i, Value.future false))
      simp only [List.mem_filterMap, List.mem_range]
      exact ⟨i, hi, by rw [List.getD, List.get?_eq_getElem?, List.getElem?_eq_getElem hi]; simp [hgi, hvf]⟩
    · intro i hi
      constructor
      · intro hgd
        simp only [List.mem_filterMap, List.mem_range]
        refine ⟨i, hi, ?_⟩
        rw [List.getD, List.get?_eq_getElem?] at hgd
        simp [hgd]
      · intro hmem
        simp only [List.mem_filterMap, List.mem_range] at hmem
        obtain ⟨j, hj, hmatch⟩ := hmem
        cases hgj : l.getD j .empty <;> rw [hgj] at hmatch <;> try cases hmatch
        case future c =>
          cases c with
          | true => cases hmatch
          | false =>
            simp at hmatch
            have : j = i := by omega
            rw [← this]
            exact hgj
  refine ⟨?_, hpend, ?_, ?_, ?_⟩
  · intro F vm addr len value l hs hall
    simp [Vm.op_select, hs, select_collect_all_complete vm.ip l 0 hall]
  · intro F _ vm addr len value l hinst hs hall
    have hsel := select_collect_all_complete vm.ip l 0 hall
    simp [Vm.step, hinst, Vm.op_select, hs,
      select_collect_all_complete (vm.ip + 1) l 0 hall]
    rfl
  · intro F _ vm addr len value l hinst hs hfut hp
    obtain ⟨sel, hsel, hne, hmem⟩ := hpend F { vm with ip := vm.ip + 1, last_ip_len := 1 }
      addr len value l hs hfut hp
    refine ⟨sel, ?_⟩
    simp only [Vm.step, hinst, hsel]
    rfl
  · intro F vm value index ready
    rfl

theorem c6_select_witness :
    c6_vm_done.stack.slice_at 0 2 = .ok [.future true, .future true] ∧
    c6_vm_done.op_select 0 2 (some 2) =
      .ok (none, { c6_vm_done with
                   stack := c6_vm_done.stack.store (some 2) .unit
                   ip := c6_vm_done.ip + 2 }) ∧
    (∃ sel, c6_vm_pending.step = .ok (.halt (.awaited sel (some 2))
      { c6_vm_pending with
        ip := c6_vm_pending.ip + 1
        last_ip_len := 1 })) := by
  have hall : ∀ v ∈ ([.future true, .future true] : List (Value Unit)),
      v = Value.future true := by
    intro v hv
    simp only [List.mem_cons, List.not_mem_nil, or_false] at hv
    rcases hv with rfl | rfl <;> rfl
  have hfut : ∀ v ∈ ([.future true, .future false] : List (Value Unit)),
      ∃ c, v = Value.future c := by
    intro v hv
    simp only [List.mem_cons, List.not_mem_nil, or_false] at hv
    rcases hv with rfl | rfl
    · exact ⟨true, rfl⟩
    · exact ⟨false, rfl⟩
  refine ⟨by rfl, ?_, ?_⟩
  · exact c6_select.1 Unit c6_vm_done 0 2 (some 2) [.future true, .future true]
      (by rfl) hall
  · exact c6_select.2.2.2.1 Unit c6_vm_pending 0 2 (some 2) [.future true, .future false]
      (by rfl) (by rfl) hfut ⟨.future false, by simp, rfl⟩

theorem import_chain_isSome_mono {σ M Item : Type}
    (stepFn : σ → M × Item → Option (σ × M × Item)) (st : σ) (mi : M × Item) (n : Nat)
    (h : (import_chain stepFn st mi (n + 1)).isSome) :
    (import_chain stepFn st mi n).isSome := by
  cases hc : import_chain stepFn st mi n with
  | some p => rfl
  | none =>
    rw [import_chain, hc] at h
    cases h

theorem import_loop_advance {σ M Item : Type} [DecidableEq Item]
    (stepFn : σ → M × Item → Option (σ × M × Item)) (st : σ) (mi : M × Item) :
    ∀ (k : Nat) (visited : List Item) (count : Nat) (any_matched : Bool),
    count + k ≤ IMPORT_RECURSION_LIMIT + 1 →
    ∀ stk mik, import_chain stepFn st mi k = some (stk, mik) →
    (∀ i, i < k → ∀ it, import_item stepFn st mi i = some it → it ∉ visited) →
    (∀ a b, a < b → b < k → import_item stepFn st mi a ≠ import_item stepFn st mi b) →
    ∃ (vk : List Item) (anyk : Bool),
      import_loop stepFn st mi visited count any_matched =
        import_loop stepFn stk mik vk (count + k) anyk ∧
      (∀ it : Item, it ∈ vk ↔
        it ∈ visited ∨ ∃ i, i < k ∧ import_item stepFn st mi i = some it) := by
  intro k
  induction k with
  | zero =>
    intro visited count any_matched h stk mik hchain hnv hdist
    rw [import_chain] at hchain
    cases hchain
    exact ⟨visited, any_matched, by rfl, fun it => by simp⟩
  | succ k ih =>
    intro visited count any_matched h stk1 mik1 hchain hnv hdist
    rw [import_chain] at hchain
    cases hck : import_chain stepFn st mi k with
    | none => rw [hck] at hchain; cases hchain
    | some p =>
      obtain ⟨stk, mik⟩ := p
      rw [hck] at hchain
      dsimp only at hchain
      cases hstep : stepFn stk mik with
      | none => rw [hstep] at hchain; cases hchain
      | some q =>
        obtain ⟨s1, m1, i1⟩ := q
        rw [hstep] at hchain
        cases hchain
        obtain ⟨vk, anyk, heq, hmemvk⟩ := ih visited count any_matched (by omega) stk mik hck
          (fun i hi it hit => hnv i (by omega) it hit)
          (fun a b hab hbk => hdist a b hab (by omega))
        have hitemk : import_item stepFn st mi k = some mik.2 := by
          simp [import_item, hck]
        have hnotin : mik.2 ∉ vk := by
          intro hin
          rcases (hmemvk mik.2).1 hin with hvis | ⟨i, hik, hiti⟩
          · exact hnv k (by omega) mik.2 hitemk hvis
          · exact hdist i k hik (by omega) (by rw [hiti, hitemk])
        refine ⟨mik.2 :: vk, true, ?_, ?_⟩
        · rw [heq]
          rw [import_loop]
          rw [if_neg (by omega : ¬ count + k > IMPORT_RECURSION_LIMIT)]
          simp only [hstep]
          rw [if_neg hnotin]
          have harith : count + k + 1 = count + (k + 1) := by omega
          rw [harith]
        · intro it
          simp only [List.mem_cons, hmemvk it]
          constructor
          · rintro (rfl | hvis | ⟨i, hik, hiti⟩)
            · exact Or.inr ⟨k, by omega, hitemk⟩
            · exact Or.inl hvis
            · exact Or.inr ⟨i, by omega, hiti⟩
          · rintro (hvis | ⟨i, hik, hiti⟩)
            · exact Or.inr (Or.inl hvis)
            · rcases Nat.lt_succ_iff_lt_or_eq.1 hik with hik1 | rfl
              · exact Or.inr (Or.inr ⟨i, hik1, hiti⟩)
              · left
                rw [hitemk] at hiti
                exact (Option.some_inj.1 hiti).symm

theorem c7_succ_chain (n : Nat) :
    import_chain c7_succ_step () ((), 0) n = some ((), ((), n)) := by
  induction n with
  | zero => rfl
  | succ n ih => rw [import_chain, ih]; rfl

/-- C7: the import recursion limit is 128 (at least 64); an import chain
whose item at step k repeats an earlier item, within the budget, is
rejected with `ImportCycle`; a chain of pairwise distinct items that
keeps matching past the budget is rejected with `ImportRecursionLimit`. -/
theorem c7_import_limit_and_cycle :
    (IMPORT_RECURSION_LIMIT = 128 ∧ 64 ≤ IMPORT_RECURSION_LIMIT) ∧
    (∀ (σ M Item : Type) [DecidableEq Item]
        (stepFn : σ → M × Item → Option (σ × M × Item)) (st : σ) (mi : M × Item)
        (j k : Nat), j < k → k ≤ IMPORT_RECURSION_LIMIT →
      (import_chain stepFn st mi (k + 1)).isSome = true →
      (∀ a b, a < b → b < k → import_item stepFn st mi a ≠ import_item stepFn st mi b) →
      import_item stepFn st mi j = import_item stepFn st mi k →
      query_import stepFn st mi = .error .importCycle) ∧
    (∀ (σ M Item : Type) [DecidableEq Item]
        (stepFn : σ → M × Item → Option (σ × M × Item)) (st : σ) (mi : M × Item),
      (import_chain stepFn st mi (IMPORT_RECURSION_LIMIT + 1)).isSome = true →
      (∀ a b, a < b → b ≤ IMPORT_RECURSION_LIMIT →
        import_item stepFn st mi a ≠ import_item stepFn st mi b) →
      query_import stepFn st mi =
        .error (.importRecursionLimit (IMPORT_RECURSION_LIMIT + 1))) := by
  refine ⟨⟨rfl, by rw [IMPORT_RECURSION_LIMIT]; omega⟩, ?_, ?_⟩
  · intro σ M Item _ stepFn st mi j k hjk hk hsucc hdist hrepeat
    have hk1 := import_chain_isSome_mono stepFn st mi k hsucc
    cases hck : import_chain stepFn st mi k with
    | none => rw [hck] at hk1; cases hk1
    | some p =>
      obtain ⟨stk, mik⟩ := p
      obtain ⟨vk, anyk, heq, hmemvk⟩ := import_loop_advance stepFn st mi k [] 0 false
        (by omega) stk mik hck (fun i _ it _ h => by cases h)
        (fun a b hab hbk => hdist a b hab hbk)
      have hitemk : import_item stepFn st mi k = some mik.2 := by
        simp [import_item, hck]
      cases hstep : stepFn stk mik with
      | none =>
        rw [import_chain, hck] at hsucc
        dsimp only at hsucc
        rw [hstep] at hsucc
        cases hsucc
      | some q =>
        have hin : mik.2 ∈ vk := by
          refine (hmemvk mik.2).2 (Or.inr ⟨j, hjk, ?_⟩)
          rw [hrepeat, hitemk]
        rw [query_import, heq, import_loop]
        rw [if_neg (by omega : ¬ 0 + k > IMPORT_RECURSION_LIMIT)]
        simp only [hstep]
        obtain ⟨s1, m1, i1⟩ := q
        rw [if_pos hin]
  · intro σ M Item _ stepFn st mi hsucc hdist
    cases hck : import_chain stepFn st mi (IMPORT_RECURSION_LIMIT + 1) with
    | none => rw [hck] at hsucc; cases hsucc
    | some p =>
      obtain ⟨stk, mik⟩ := p
      obtain ⟨vk, anyk, heq, hmemvk⟩ :=
        import_loop_advance stepFn st mi (IMPORT_RECURSION_LIMIT + 1) [] 0 false
          (by omega) stk mik hck (fun i _ it _ h => by cases h)
          (fun a b hab hbk => hdist a b hab (by omega))
      rw [query_import, heq, import_loop]
      rw [if_pos (by omega : 0 + (IMPORT_RECURSION_LIMIT + 1) > IMPORT_RECURSION_LIMIT)]
      have harith : 0 + (IMPORT_RECURSION_LIMIT + 1) = IMPORT_RECURSION_LIMIT + 1 := by omega
      rw [harith]

theorem c7_import_limit_and_cycle_witness :
    query_import c7_cycle_step () ((), 0) = .error .importCycle ∧
    query_import c7_succ_step () ((), 0) =
      .error (.importRecursionLimit (IMPORT_RECURSION_LIMIT + 1)) := by
  constructor
  · exact c7_import_limit_and_cycle.2.1 Unit Unit Nat c7_cycle_step () ((), 0) 0 2
      (by omega) (by rw [IMPORT_RECURSION_LIMIT]; omega) (by decide)
      (by intro a b hab hb2
          have hb : b = 1 := by omega
          have ha : a = 0 := by omega
          subst hb; subst ha; decide)
      (by decide)
  · exact c7_import_limit_and_cycle.2.2 Unit Unit Nat c7_succ_step () ((), 0)
      (by rw [c7_succ_chain]; rfl)
      (by intro a b hab hb
          have hia : import_item c7_succ_step () ((), 0) a = some a := by
            simp [import_item, c7_succ_chain]
          have hib : import_item c7_succ_step () ((), 0) b = some b := by
            simp [import_item, c7_succ_chain]
          rw [hia, hib]
          simp
          omega)

theorem char_or_label_loop_label_prefix (l : List Char) :
    ∀ (rest : List Char) (count : Nat),
    (∀ c ∈ l, is_label_char c = true) →
    char_or_label_loop (l ++ rest) true count =
      char_or_label_loop rest true (count + l.length) := by
  induction l with
  | nil => intro rest count _; simp
  | cons c l ih =>
    intro rest count hl
    have hc : is_label_char c = true := hl c (by simp)
    have hbs : ¬ c = '\\' := fun heq => by
      rw [heq] at hc; exact absurd hc (by decide)
    have hq : ¬ c = '\'' := fun heq => by
      rw [heq] at hc; exact absurd hc (by decide)
    rw [List.cons_append, char_or_label_loop.eq_def]
    dsimp only
    rw [if_neg hbs, if_neg hq, hc]
    rw [if_pos rfl]
    rw [ih rest (count + 1) (fun d hd => hl d (by simp [hd]))]
    congr 1
    simp [List.length_cons]
    omega

/-- C8 (amended): in `next_char_or_label`, label-continuation characters
are exactly the ASCII digits and lowercase letters: a nonempty run of
them that ends at the input's end, or at a character that is no quote,
escape, label character or control character, lexes as a label; a
closing quote after at least one consumed character lexes as a char
literal. -/
theorem c8_char_or_label :
    (∀ (l : List Char), l ≠ [] → (∀ c ∈ l, is_label_char c = true) →
      next_char_or_label l = .ok .label) ∧
    (∀ (l : List Char) (c : Char) (rest : List Char), l ≠ [] →
      (∀ d ∈ l, is_label_char d = true) →
      ¬ c = '\\' → ¬ c = '\'' → is_label_char c = false → char_is_control c = false →
      next_char_or_label (l ++ c :: rest) = .ok .label) ∧
    (∀ (l : List Char) (rest : List Char), l ≠ [] →
      (∀ c ∈ l, is_label_char c = true) →
      next_char_or_label (l ++ '\'' :: rest) = .ok .char) := by
  refine ⟨?_, ?_, ?_⟩
  · intro l hne hl
    have h0 := char_or_label_loop_label_prefix l [] 0 hl
    rw [List.append_nil] at h0
    rw [next_char_or_label, h0, char_or_label_loop, char_or_label_finish]
    rw [if_neg (by simpa using hne), if_pos rfl]
  · intro l c rest hne hl hbs hq hlab hctl
    rw [next_char_or_label, char_or_label_loop_label_prefix l (c :: rest) 0 hl]
    rw [char_or_label_loop.eq_def]
    dsimp only
    rw [if_neg hbs, if_neg hq]
    rw [if_neg (by rw [hlab]; exact Bool.false_ne_true)]
    rw [if_neg (by rw [hctl]; exact Bool.false_ne_true)]
    rw [if_pos ⟨rfl, by simpa using List.length_pos.2 hne⟩]
    rw [char_or_label_finish, if_neg (by simpa using hne), if_pos rfl]
  · intro l rest hne hl
    rw [next_char_or_label, char_or_label_loop_label_prefix l ('\'' :: rest) 0 hl]
    rw [char_or_label_loop.eq_def]
    dsimp only
    rw [if_neg (by decide), if_pos rfl]
    rw [char_or_label_finish, if_neg (by simpa using hne)]
    rw [if_neg Bool.false_ne_true]

theorem c8_char_or_label_witness :
    next_char_or_label ['l', 'o', 'o', 'p'] = .ok .label ∧
    next_char_or_label (['l', 'o', 'o', 'p'] ++ ' ' :: []) = .ok .label ∧
    next_char_or_label (['a'] ++ '\'' :: []) = .ok .char := by
  refine ⟨?_, ?_, ?_⟩
  · exact c8_char_or_label.1 ['l', 'o', 'o', 'p'] (by decide) (by decide)
  · exact c8_char_or_label.2.1 ['l', 'o', 'o', 'p'] ' ' [] (by decide) (by decide)
      (by decide) (by decide) (by decide) (by decide)
  · exact c8_char_or_label.2.2 ['a'] [] (by decide) (by decide)

/-- C8 (counterexample to the original claim): the uppercase letter A is
an identifier-continuation character, yet the input `'A` — a leading
quote followed by an identifier-continuation character and no closing
quote — lexes as a char literal, not as a label. -/
theorem c8_char_or_label_counterexample :
    spec_ident_continue_ascii 'A' = true ∧
    next_char_or_label ['A'] = .ok .char := by
  exact ⟨by decide, by rfl⟩

end Rune
